import Mathlib

/-!
Verification development for the expression-evaluation core of the
bloblang query language (package `internal/bloblang/query`).

The repository snapshot contains only the test files
`arithmetic_test.go` and `expression_test.go` for this package; the
implementation files (`arithmetic.go`, `expression.go`, the literal and
accessor functions) are absent.  Every definition below is therefore
modelled from the natural-language specification (`spec.md`), staying as
close as possible to the Go API surface exercised by the tests
(`NewLiteralFunction`, `NewArithmeticExpression`, `NewIfFunction`,
`NewMatchFunction`, `NewFieldFunction`, accessor functions, `Exec`,
`QueryTargets`).  Go's `float64` is modelled as an exact fraction type:
every float value appearing in the claims is a small integer, exactly
representable in both.  Errors are modelled as their message strings,
matching the string-exact comparisons performed by the tests.
-/

/-- Modelled from the spec: error values are observed by callers only
through their message text, so an error is modelled as its message. -/
abbrev Err := String

/-- Euclidean gcd with an explicit structural fuel bound, so that the
kernel can evaluate it on closed inputs. -/
def gcdAux : Nat → Nat → Nat → Nat
  | 0, _, b => b
  | _ + 1, 0, b => b
  | fuel + 1, a + 1, b => gcdAux fuel (b % (a + 1)) (a + 1)

/-- Greatest common divisor (the fuel `a + 1` always suffices, since the
first argument strictly decreases on every step). -/
def natGcd (a b : Nat) : Nat :=
  gcdAux (a + 1) a b

/-- Modelled from the spec: the exact-value model of Go's `float64` — a
normalized fraction (every float64 appearing in the claims is a small
integer, exactly representable in both models). -/
structure F64 where
  num : Int
  den : Nat
deriving DecidableEq, Repr

/-- Build a normalized fraction from a numerator and a positive
denominator. -/
def mkF64 (n : Int) (d : Nat) : F64 :=
  if d = 0 then ⟨0, 1⟩
  else
    let g := natGcd n.natAbs d
    ⟨Int.tdiv n (g : Int), d / g⟩

/-- Embed an integer as a float64 value. -/
def F64.ofInt (i : Int) : F64 := ⟨i, 1⟩

/-- Exact float64 addition. -/
def F64.add (a b : F64) : F64 :=
  mkF64 (a.num * (b.den : Int) + b.num * (a.den : Int)) (a.den * b.den)

/-- Exact float64 subtraction. -/
def F64.sub (a b : F64) : F64 :=
  mkF64 (a.num * (b.den : Int) - b.num * (a.den : Int)) (a.den * b.den)

/-- Exact float64 multiplication. -/
def F64.mul (a b : F64) : F64 :=
  mkF64 (a.num * b.num) (a.den * b.den)

/-- Exact float64 division (callers guard against a zero divisor). -/
def F64.div (a b : F64) : F64 :=
  if b.num < 0 then mkF64 (-(a.num * (b.den : Int))) (a.den * b.num.natAbs)
  else mkF64 (a.num * (b.den : Int)) (a.den * b.num.natAbs)

/-- Boolean less-or-equal on exact float64 values. -/
def F64.ble (a b : F64) : Bool :=
  a.num * (b.den : Int) ≤ b.num * (a.den : Int)

/-- Boolean strict less-than on exact float64 values. -/
def F64.blt (a b : F64) : Bool :=
  a.num * (b.den : Int) < b.num * (a.den : Int)

/-- Truncation of an exact float64 toward zero, matching Go's conversion
and `math.Mod` conventions. -/
def F64.trunc (a : F64) : Int :=
  Int.tdiv a.num (a.den : Int)

/-- Remainder matching Go's `math.Mod`: the result has the sign of the
dividend (callers guard against a zero divisor). -/
def F64.fmod (a b : F64) : F64 :=
  F64.sub a (F64.mul b (F64.ofInt (F64.trunc (F64.div a b))))

/-- Modelled from the spec: the dynamically-typed domain value — one of
null, boolean, int64, uint64, float64, string, ordered sequence,
string-keyed mapping, or one of the two sentinels (Absent, Delete).
`float64` is modelled as the exact fraction type `F64` (all float values
in the claims are exactly representable); mappings are modelled as
ordered key/value sequences. -/
inductive Value where
  | vnull : Value
  | vbool (b : Bool) : Value
  | vint (i : Int) : Value
  | vuint (n : Nat) : Value
  | vfloat (q : F64) : Value
  | vstr (s : String) : Value
  | varr (l : List Value) : Value
  | vobj (l : List (String × Value)) : Value
  | vabsent : Value
  | vdelete : Value

mutual

/-- Modelled from the spec: structural equality of two values.  Values of
different kinds are unequal; sequences and mappings compare element-wise
(mappings as ordered key/value sequences). -/
def valueEq : Value → Value → Bool
  | .vnull, .vnull => true
  | .vbool a, .vbool b => a == b
  | .vint a, .vint b => a == b
  | .vuint a, .vuint b => a == b
  | .vfloat a, .vfloat b => a == b
  | .vstr a, .vstr b => a == b
  | .varr a, .varr b => valueEqL a b
  | .vobj a, .vobj b => valueEqO a b
  | .vabsent, .vabsent => true
  | .vdelete, .vdelete => true
  | _, _ => false

/-- Modelled from the spec: element-wise structural equality of sequences. -/
def valueEqL : List Value → List Value → Bool
  | [], [] => true
  | x :: xs, y :: ys => valueEq x y && valueEqL xs ys
  | _, _ => false

/-- Modelled from the spec: pairwise structural equality of mappings
(modelled as ordered key/value sequences). -/
def valueEqO : List (String × Value) → List (String × Value) → Bool
  | [], [] => true
  | (k1, v1) :: xs, (k2, v2) :: ys => k1 == k2 && valueEq v1 v2 && valueEqO xs ys
  | _, _ => false

end

/-- Modelled from the spec: the closed enum of binary operators joining
adjacent operands of a flat arithmetic expression. -/
inductive Op where
  | add | sub | mul | div | mod
  | eq | neq | gt | gte | lt | lte
  | and | or | pipe
deriving DecidableEq, Repr

/-- Modelled from the spec: a numeric value is an int64, a uint64 or a
float64; all other value kinds are non-numeric. -/
inductive NumV where
  | i (v : Int) : NumV
  | u (v : Nat) : NumV
  | f (v : F64) : NumV

/-- Modelled from the spec: the numeric view of a value, when it has one. -/
def toNum : Value → Option NumV
  | .vint n => some (.i n)
  | .vuint n => some (.u n)
  | .vfloat q => some (.f q)
  | _ => none

/-- The exact fractional magnitude of a numeric value (used for zero
tests and for cross-subtype comparison after promotion). -/
def NumV.toF : NumV → F64
  | .i v => F64.ofInt v
  | .u v => F64.ofInt (v : Int)
  | .f v => v

/-- Modelled from the spec: the numeric promotion lattice for
Add/Sub/Mul/Div/Mod.  If either operand is float64 the result is
float64; else if either is uint64 the result follows uint64 unless a
negative int64 operand is present (then float64); else int64. -/
def numBin (fi : Int → Int → Int) (fu : Nat → Nat → Nat) (ff : F64 → F64 → F64)
    (a b : NumV) : NumV :=
  match a, b with
  | .f x, _ => .f (ff x b.toF)
  | _, .f y => .f (ff a.toF y)
  | .u x, .u y => .u (fu x y)
  | .u x, .i y => if y < 0 then .f (ff a.toF b.toF) else .u (fu x y.toNat)
  | .i x, .u y => if x < 0 then .f (ff a.toF b.toF) else .u (fu x.toNat y)
  | .i x, .i y => .i (fi x y)

/-- Back from the numeric view to a value. -/
def NumV.toValue : NumV → Value
  | .i v => .vint v
  | .u v => .vuint v
  | .f v => .vfloat v

/-- Go-style `%v` rendering of a value, needed only for the error texts
of mismatched ordering comparisons. -/
def renderValue : Value → String
  | .vnull => "<nil>"
  | .vbool b => if b then "true" else "false"
  | .vint i => toString i
  | .vuint n => toString n
  | .vfloat q => toString q.num ++ (if q.den == 1 then "" else "/" ++ toString q.den)
  | .vstr s => s
  | .varr _ => "<array>"
  | .vobj _ => "<object>"
  | .vabsent => "<absent>"
  | .vdelete => "<delete>"

/-- Short kind name of a value, used in generic type-mismatch messages. -/
def typeName : Value → String
  | .vnull => "null"
  | .vbool _ => "bool"
  | .vint _ => "number"
  | .vuint _ => "number"
  | .vfloat _ => "number"
  | .vstr _ => "string"
  | .varr _ => "array"
  | .vobj _ => "object"
  | .vabsent => "nothing"
  | .vdelete => "delete"

/-- Modelled from the spec: equality as observed by the Eq/Neq operators —
numeric operands of any subtype compare by numeric magnitude, all other
pairs compare structurally, incomparable categories are simply unequal. -/
def valueEqSem (v w : Value) : Bool :=
  match toNum v, toNum w with
  | some a, some b => a.toF == b.toF
  | _, _ => valueEq v w

/-- Modelled from the spec: ordering comparisons require both operands in
the same broad category: both numeric (compared after promotion to an
exact common magnitude) or both string (lexicographic); mismatched
categories fail with a descriptive type-mismatch error identifying the
unexpected type. -/
def cmpVals (lt : Bool) (allowEq : Bool) (v w : Value) : Except Err Value :=
  match toNum v, toNum w with
  | some a, some b =>
      let x := a.toF
      let y := b.toF
      .ok (.vbool (if lt then (if allowEq then F64.ble x y else F64.blt x y)
                   else (if allowEq then F64.ble y x else F64.blt y x)))
  | _, _ =>
    match v, w with
    | .vstr a, .vstr b =>
        .ok (.vbool (if lt then (if allowEq then a ≤ b else a < b)
                     else (if allowEq then b ≤ a else b < a)))
    | .vstr _, _ =>
        if (toNum w).isSome then
          .error ("expected string value, found number: " ++ renderValue w)
        else
          .error ("cannot compare string value with " ++ typeName w ++ " value")
    | _, .vstr _ =>
        if (toNum v).isSome then
          .error ("expected number value, found string: " ++ renderValue w)
        else
          .error ("cannot compare " ++ typeName v ++ " value with string value")
    | _, _ =>
        .error ("cannot compare " ++ typeName v ++ " value with " ++ typeName w ++ " value")

/-- Modelled from the spec: the strict (non-short-circuiting, non-coalescing)
binary operators applied to two already-evaluated values.
Add concatenates strings or sums numbers; Sub/Mul/Div/Mod are numeric
only; a divisor numerically equal to zero fails with the exact text
"attempted to divide by zero" for both Div and Mod; Eq/Neq are total
structural equality; Gt/Gte/Lt/Lte are ordering comparisons. -/
def applyBinOp : Op → Value → Value → Except Err Value
  | .add, .vstr a, .vstr b => .ok (.vstr (a ++ b))
  | .add, v, w =>
    match toNum v, toNum w with
    | some a, some b => .ok (numBin (· + ·) (· + ·) F64.add a b).toValue
    | _, _ => .error ("cannot add types " ++ typeName v ++ " and " ++ typeName w)
  | .sub, v, w =>
    match toNum v, toNum w with
    | some a, some b => .ok (numBin (· - ·) (· - ·) F64.sub a b).toValue
    | _, _ => .error ("cannot subtract types " ++ typeName v ++ " and " ++ typeName w)
  | .mul, v, w =>
    match toNum v, toNum w with
    | some a, some b => .ok (numBin (· * ·) (· * ·) F64.mul a b).toValue
    | _, _ => .error ("cannot multiply types " ++ typeName v ++ " and " ++ typeName w)
  | .div, v, w =>
    match toNum v, toNum w with
    | some a, some b =>
      if b.toF.num = 0 then .error "attempted to divide by zero"
      else .ok (numBin Int.tdiv Nat.div F64.div a b).toValue
    | _, _ => .error ("cannot divide types " ++ typeName v ++ " and " ++ typeName w)
  | .mod, v, w =>
    match toNum v, toNum w with
    | some a, some b =>
      if b.toF.num = 0 then .error "attempted to divide by zero"
      else .ok (numBin Int.tmod Nat.mod F64.fmod a b).toValue
    | _, _ => .error ("cannot modulo types " ++ typeName v ++ " and " ++ typeName w)
  | .eq, v, w => .ok (.vbool (valueEqSem v w))
  | .neq, v, w => .ok (.vbool (!valueEqSem v w))
  | .gt, v, w => cmpVals false false v w
  | .gte, v, w => cmpVals false true v w
  | .lt, v, w => cmpVals true false v w
  | .lte, v, w => cmpVals true true v w
  | .and, v, w => .error ("cannot apply and to " ++ typeName v ++ " and " ++ typeName w)
  | .or, v, w => .error ("cannot apply or to " ++ typeName v ++ " and " ++ typeName w)
  | .pipe, v, w => .error ("cannot apply pipe to " ++ typeName v ++ " and " ++ typeName w)

/-- Modelled from the spec: the kind of a static read target. -/
inductive TargetKind where
  | value | metadata | variable
deriving DecidableEq, Repr

/-- Modelled from the spec: a static read-target descriptor — a kind plus
an ordered sequence of path segments (empty for whole-scope references). -/
structure TargetPath where
  kind : TargetKind
  path : List String
deriving DecidableEq, Repr

/-- Constructor mirroring Go's variadic `NewTargetPath`. -/
def NewTargetPath (kind : TargetKind) (path : List String) : TargetPath :=
  ⟨kind, path⟩

/-- Modelled from the spec: one message part of the external batch
collaborator — raw content bytes, the parsed document (or a parse
failure), and metadata key/value pairs. -/
structure MsgPart where
  raw : String
  doc : Except Err Value
  metaKVs : List (String × String)

/-- Modelled from the spec: the per-call execution context — optional
scoped value (present distinguishes no scoped value from an explicitly
null one), optional named variables, message index and message batch. -/
structure FunctionContext where
  value : Option Value
  vars : Option (List (String × Value))
  index : Nat
  msgBatch : List MsgPart

/-- Replace the scoped value of a context, reusing every other field:
the re-scoping operation used by Match. -/
def withValue : FunctionContext → Value → FunctionContext
  | ⟨_, vars, i, b⟩, v => ⟨some v, vars, i, b⟩

/-- Replace the batch of a context, reusing every other field. -/
def withBatch : FunctionContext → List MsgPart → FunctionContext
  | ⟨v, vars, i, _⟩, b => ⟨v, vars, i, b⟩

/-- The pure denotation of a node's `Exec` method: context in, value or
error out. -/
abbrev Fn := FunctionContext → Except Err Value

/-- A flat sub-chain of an arithmetic expression: a first operand plus
the remaining operator/operand pairs (so N operands always carry exactly
N-1 operators, positionally associated with the gaps). -/
abbrev ChainOf (α : Type) := α × List (Op × α)

/-- Split a flat chain at every operator satisfying `p`, producing the
first group and the following groups; the ops satisfying `p` become the
separators and the groups keep their internal operators. -/
def splitOn {α : Type} (p : Op → Bool) : α → List (Op × α) → ChainOf α × List (ChainOf α)
  | f, [] => ((f, []), [])
  | f, (o, g) :: rest =>
    let r := splitOn p g rest
    if p o then ((f, []), r.1 :: r.2)
    else ((f, (o, r.1.1) :: r.1.2), r.2)

/-- An operand value must be boolean for the And/Or tiers. -/
def asBool : Value → Except Err Bool
  | .vbool b => .ok b
  | v => .error ("expected bool value, found " ++ typeName v)

/-- Modelled from the spec: the two sentinels are the values skipped by
the coalescing Pipe tier. -/
def isSentinel : Value → Bool
  | .vabsent => true
  | .vdelete => true
  | _ => false

/-- Evaluate the operator/operand tail of a strict sub-chain left to
right, producing operator/value pairs (first operand error propagates). -/
def evalOperands : List (Op × Fn) → FunctionContext → Except Err (List (Op × Value))
  | [], _ => .ok []
  | (o, f) :: rest, ctx => do
    let v ← f ctx
    let vs ← evalOperands rest ctx
    .ok ((o, v) :: vs)

/-- Collapse, left to right, every occurrence of an operator satisfying
`p` in an already-evaluated chain, leaving the other operators in place:
one precedence-tier pass of the reduction. -/
def collapseTier (p : Op → Bool) : Value → List (Op × Value) → Except Err (Value × List (Op × Value))
  | v, [] => .ok (v, [])
  | v, (o, w) :: rest =>
    if p o then do
      let vw ← applyBinOp o v w
      collapseTier p vw rest
    else do
      let r ← collapseTier p w rest
      .ok (v, (o, r.1) :: r.2)

/-- Membership of the three strict precedence tiers. -/
def isMulTier : Op → Bool
  | .mul | .div | .mod => true
  | _ => false

/-- Membership of the additive tier. -/
def isAddTier : Op → Bool
  | .add | .sub => true
  | _ => false

/-- Membership of the comparison tier. -/
def isCmpTier : Op → Bool
  | .eq | .neq | .gt | .gte | .lt | .lte => true
  | _ => false

/-- Modelled from the spec: reduce an evaluated strict chain by collapsing
the precedence tiers in order {Mul,Div,Mod} then {Add,Sub} then the
comparisons, left to right within each tier. -/
def strictCollapse (v : Value) (ovs : List (Op × Value)) : Except Err Value := do
  let r1 ← collapseTier isMulTier v ovs
  let r2 ← collapseTier isAddTier r1.1 r1.2
  let r3 ← collapseTier isCmpTier r2.1 r2.2
  if r3.2.isEmpty then .ok r3.1 else .error "invalid arithmetic expression"

/-- Evaluate a strict sub-chain (one containing no And, Or or Pipe):
all operands are evaluated left to right, then the tiers collapse. -/
def evalStrict (c : ChainOf Fn) (ctx : FunctionContext) : Except Err Value := do
  let v ← c.1 ctx
  let ovs ← evalOperands c.2 ctx
  strictCollapse v ovs

/-- Modelled from the spec: the And tier over two or more strict groups.
Each group must produce a boolean; as soon as a left-hand group produces
false the remaining groups are never invoked and false is returned. -/
def andLoop : ChainOf Fn → List (ChainOf Fn) → FunctionContext → Except Err Value
  | c, [], ctx => do
    let v ← evalStrict c ctx
    let b ← asBool v
    .ok (.vbool b)
  | c, c2 :: cs, ctx => do
    let v ← evalStrict c ctx
    let b ← asBool v
    if b then andLoop c2 cs ctx else .ok (.vbool false)

/-- Evaluate an Or-free, Pipe-free sub-chain: split at And; a single
group is a plain strict chain (no boolean requirement), multiple groups
run the short-circuiting And loop. -/
def evalAndChain (g : ChainOf Fn) (ctx : FunctionContext) : Except Err Value :=
  match splitOn (· == Op.and) g.1 g.2 with
  | (c, []) => evalStrict c ctx
  | (c, c2 :: cs) => andLoop c (c2 :: cs) ctx

/-- Modelled from the spec: the Or tier over two or more And-chains.
Each group must produce a boolean; as soon as a left-hand group produces
true the remaining groups are never invoked and true is returned. -/
def orLoop : ChainOf Fn → List (ChainOf Fn) → FunctionContext → Except Err Value
  | g, [], ctx => do
    let v ← evalAndChain g ctx
    let b ← asBool v
    .ok (.vbool b)
  | g, g2 :: gs, ctx => do
    let v ← evalAndChain g ctx
    let b ← asBool v
    if b then .ok (.vbool true) else orLoop g2 gs ctx

/-- Evaluate a Pipe-free sub-chain: split at Or; a single group is a
plain And-chain, multiple groups run the short-circuiting Or loop. -/
def evalOrChain (g : ChainOf Fn) (ctx : FunctionContext) : Except Err Value :=
  match splitOn (· == Op.or) g.1 g.2 with
  | (c, []) => evalAndChain c ctx
  | (c, c2 :: cs) => orLoop c (c2 :: cs) ctx

/-- Modelled from the spec: the coalescing Pipe tier — evaluate groups
left to right, skipping any group whose result is a sentinel or whose
evaluation errors; the final group's result is returned as-is (sentinel
included), unless it errors, in which case that error propagates. -/
def pipeLoop : ChainOf Fn → List (ChainOf Fn) → FunctionContext → Except Err Value
  | g, [], ctx => evalOrChain g ctx
  | g, g2 :: gs, ctx =>
    match evalOrChain g ctx with
    | .error _ => pipeLoop g2 gs ctx
    | .ok v => if isSentinel v then pipeLoop g2 gs ctx else .ok v

/-- Modelled from the spec: `Exec` of a flat arithmetic expression —
split at Pipe into coalesced groups, each of which reduces through the
Or, And and strict tiers. -/
def execArithChain (hd : Fn) (rest : List (Op × Fn)) : Fn := fun ctx =>
  match splitOn (· == Op.pipe) hd rest with
  | (g, gs) => pipeLoop g gs ctx

/-- Modelled from the spec: Go's nil-able `[]TargetPath` slice — `none`
is the nil slice (a true absence), `some l` a non-nil slice. -/
abbrev GoPaths := Option (List TargetPath)

/-- Go's `append(acc, sub...)` on nil-able slices: appending no elements
returns the accumulator unchanged (nil stays nil); appending one or more
elements to nil allocates a non-nil slice. -/
def goAppend (a : GoPaths) (b : GoPaths) : GoPaths :=
  match b with
  | none => a
  | some [] => a
  | some bs =>
    match a with
    | none => some bs
    | some as_ => some (as_ ++ bs)

/-- The plain list of targets denoted by a nil-able slice. -/
def goToList (a : GoPaths) : List TargetPath :=
  a.getD []

/-- Modelled from the spec: a query function value — the uniform Node
abstraction, carrying its `Exec` denotation and its `QueryTargets`
result (static data, computed at construction like the Go structures
compute it on demand from their immutable children). -/
structure Function where
  exec : Fn
  targets : GoPaths

/-- Look up a key in an ordered key/value mapping. -/
def lookupKV : String → List (String × Value) → Option Value
  | _, [] => none
  | k, (k2, v) :: rest => if k == k2 then some v else lookupKV k rest

/-- Look up a metadata key on a message part. -/
def lookupMeta : String → List (String × String) → Option String
  | _, [] => none
  | k, (k2, v) :: rest => if k == k2 then some v else lookupMeta k rest

/-- Modelled from the spec: resolve a dot-path against a structured
value; descending into a non-mapping or a missing field fails with an
"undefined" condition. -/
def walkPath : List String → Value → Except Err Value
  | [], v => .ok v
  | seg :: rest, .vobj kvs =>
    match lookupKV seg kvs with
    | some v => walkPath rest v
    | none => .error ("path " ++ seg ++ " is undefined")
  | seg :: _, _ => .error ("path " ++ seg ++ " is undefined")

/-- The parsed document of the message part the context points at. -/
def docAt (ctx : FunctionContext) : Except Err Value :=
  match ctx.msgBatch.get? ctx.index with
  | some part => part.doc
  | none => .error "message part does not exist"

/-- Character-level worker for `splitPath` (written over the character
list so that the kernel can evaluate it on closed inputs). -/
def splitPathAux : List Char → List Char → List String
  | [], acc => [String.mk acc.reverse]
  | c :: rest, acc =>
    if c = '.' then String.mk acc.reverse :: splitPathAux rest []
    else splitPathAux rest (c :: acc)

/-- Split a Go dot-path string into segments; the empty string denotes
the whole-scope reference (an empty path). -/
def splitPath (s : String) : List String :=
  if s == "" then [] else splitPathAux s.data []

/-- Modelled from the spec: the Literal node — returns its fixed value,
never errors, exposes no read targets (a Go nil slice). -/
def NewLiteralFunction (v : Value) : Function :=
  ⟨fun _ => .ok v, none⟩

/-- Modelled from the spec: the relative field accessor leaf — resolves
its path against the scoped value (falling back to the message document
when no scoped value is present) and exposes exactly one Value-kind
target. -/
def NewFieldFunction (s : String) : Function :=
  ⟨fun ctx => do
      let root ← match ctx.value with
        | some v => Except.ok v
        | none => docAt ctx
      walkPath (splitPath s) root,
   some [⟨.value, splitPath s⟩]⟩

/-- Modelled from the spec: the `json` accessor function — resolves its
path against the message document and exposes exactly one Value-kind
target. -/
def NewJSONFunction (s : String) : Function :=
  ⟨fun ctx => do
      let root ← docAt ctx
      walkPath (splitPath s) root,
   some [⟨.value, splitPath s⟩]⟩

/-- Modelled from the spec: the `meta` accessor function — resolves a
metadata key on the current message part, failing with an "undefined"
condition when unset, and exposes exactly one Metadata-kind target. -/
def NewMetaFunction (key : String) : Function :=
  ⟨fun ctx =>
      match ctx.msgBatch.get? ctx.index with
      | none => .error "message part does not exist"
      | some part =>
        match lookupMeta key part.metaKVs with
        | some v => .ok (.vstr v)
        | none => .error ("metadata value " ++ key ++ " not found"),
   some [⟨.metadata, [key]⟩]⟩

/-- Modelled from the spec: the `var` accessor function — resolves a
named variable from the execution context, failing when the variable
store is absent or the name unset, and exposes exactly one
Variable-kind target. -/
def NewVarFunction (name : String) : Function :=
  ⟨fun ctx =>
      match ctx.vars with
      | none => .error "variables were undefined"
      | some vs =>
        match lookupKV name vs with
        | some v => .ok v
        | none => .error ("variable " ++ name ++ " undefined"),
   some [⟨.variable, [name]⟩]⟩

/-- Fold the targets of a sequence of operand functions, in left-to-right
operand order, with Go append semantics (nil stays nil when nothing is
ever appended). -/
def foldTargets (fns : List Function) : GoPaths :=
  fns.foldl (fun acc f => goAppend acc f.targets) none

/-- Modelled from the spec: the arithmetic-expression constructor — takes
N operand functions and exactly N-1 operators; its `Exec` is the tiered
reduction and its `QueryTargets` the left-to-right concatenation of the
operands' targets, independent of the operators. -/
def NewArithmeticExpression (fns : List Function) (ops : List Op) : Except Err Function :=
  match fns with
  | [] => .error "require at least one operand"
  | f :: rest =>
    if rest.length = ops.length then
      .ok ⟨execArithChain f.exec (ops.zip (rest.map Function.exec)), foldTargets fns⟩
    else
      .error "mismatch of operands and operators"

/-- Naive left-to-right folding of a flat arithmetic expression, written
from the spec's words only as the foil the tiered reduction is compared
against ("not the naive left-to-right `33`"); it is not part of the
modelled program. -/
def naiveFold : Value → List (Op × Fn) → FunctionContext → Except Err Value
  | v, [], _ => .ok v
  | v, (o, f) :: rest, ctx => do
    let w ← f ctx
    let vw ← applyBinOp o v w
    naiveFold vw rest ctx

/-- Naive left-to-right evaluation of a whole chain, the spec's foil. -/
def naiveExec (hd : Fn) (rest : List (Op × Fn)) : Fn := fun ctx => do
  let v ← hd ctx
  naiveFold v rest ctx

/-- Modelled from the spec: the If node — evaluate the condition; a
condition error (or a non-boolean condition value) fails with the
wrapped text "failed to check if condition: ..."; true runs the then
branch, false the else branch, or returns the Absent sentinel when no
else branch exists.  Targets are condition's, then branch's, then else
branch's, concatenated. -/
def NewIfFunction (cond thenF : Function) (elseF : Option Function) : Function :=
  ⟨fun ctx =>
      match cond.exec ctx with
      | .error e => .error ("failed to check if condition: " ++ e)
      | .ok (.vbool true) => thenF.exec ctx
      | .ok (.vbool false) =>
        match elseF with
        | some f => f.exec ctx
        | none => .ok .vabsent
      | .ok v => .error ("failed to check if condition: expected bool value, found " ++ typeName v),
   goAppend (goAppend cond.targets thenF.targets)
     (match elseF with | some f => f.targets | none => none)⟩

/-- Modelled from the spec: one case of a Match node — a boolean query
and the result produced when the query matches. -/
structure MatchCase where
  query : Function
  result : Function

/-- Constructor mirroring Go's `NewMatchCase`. -/
def NewMatchCase (query result : Function) : MatchCase :=
  ⟨query, result⟩

/-- Modelled from the spec: iterate Match cases in order under the
re-scoped context; a case-query error fails the whole Match with the
wrapped text "failed to check match case {index}: ..."; the first case
whose query yields boolean true has its result evaluated under the same
context and returned, and later cases are never evaluated; with no
matching case the Absent sentinel is returned. -/
def runCases : Nat → List MatchCase → FunctionContext → Except Err Value
  | _, [], _ => .ok .vabsent
  | i, c :: cs, ctx =>
    match c.query.exec ctx with
    | .error e => .error ("failed to check match case " ++ toString i ++ ": " ++ e)
    | .ok (.vbool true) => c.result.exec ctx
    | .ok _ => runCases (i + 1) cs ctx

/-- Modelled from the spec: prefix every Value-kind target with the
context path; Metadata- and Variable-kind targets are never prefixed. -/
def prefixValuePaths (pre : List String) (ts : List TargetPath) : List TargetPath :=
  ts.map fun tp =>
    match tp.kind with
    | .value => ⟨.value, pre ++ tp.path⟩
    | _ => tp

/-- Modelled from the spec: the path prefix contributed by a Match
context expression — present exactly when the context's own target is a
single Value-kind target (a value-path accessor). -/
def contextPrefix (ts : GoPaths) : Option (List String) :=
  match ts with
  | some [⟨.value, p⟩] => some p
  | _ => none

/-- Modelled from the spec: Match `QueryTargets` — for each case in
order, the case query's targets then the case result's targets; when the
context is a value-path accessor every Value-kind case target is
prefixed with its path; the context's own targets are appended at the
very end; an absent context contributes no prefix and no targets. -/
def matchTargets (ctxF : Option Function) (cases : List MatchCase) : GoPaths :=
  let caseTs := cases.foldl
    (fun acc c => goAppend (goAppend acc c.query.targets) c.result.targets) none
  match ctxF with
  | none => caseTs
  | some cf =>
    let caseTs := match contextPrefix cf.targets with
      | some p => Option.map (prefixValuePaths p) caseTs
      | none => caseTs
    goAppend caseTs cf.targets

/-- Modelled from the spec: the Match node — evaluate the context
expression (its error propagates unwrapped), re-scope to the produced
value (or keep the ambient scoped value when the context is absent) and
iterate the cases; targets follow `matchTargets`. -/
def NewMatchFunction (ctxF : Option Function) (cases : List MatchCase) : Function :=
  ⟨fun ctx =>
      match ctxF with
      | none => runCases 0 cases ctx
      | some cf =>
        match cf.exec ctx with
        | .error e => .error e
        | .ok v => runCases 0 cases (withValue ctx v),
   matchTargets ctxF cases⟩

/-- A result is skippable by the coalescing Pipe tier exactly when it is
an error or a sentinel value. -/
def Skippable (r : Except Err Value) : Prop :=
  match r with
  | .error _ => True
  | .ok v => isSentinel v = true

/-- Modelled from the spec: the deep expression tree — the concrete Node
variants (Literal, Accessor leaves, Arithmetic, If, Match), used to
quantify over every expression the modelled constructors can build. -/
inductive Node where
  | lit (v : Value)
  | fieldN (path : String)
  | jsonN (path : String)
  | metaN (key : String)
  | varN (name : String)
  | arithN (head : Node) (rest : List (Op × Node))
  | ifN (cond thenN : Node) (elseN : Option Node)
  | matchN (ctxE : Option Node) (cases : List (Node × Node))

/-- The state-threading denotation of `Exec`: context in, value or error
out, together with the message batch after the call — the batch is
threaded explicitly so that leaving it unchanged is a provable property
of the model rather than an assumption baked into its type. -/
abbrev SFn := FunctionContext → Except Err Value × List MsgPart

/-- Batch-threading version of `evalOperands`. -/
def sEvalOperands : List (Op × SFn) → FunctionContext → Except Err (List (Op × Value)) × List MsgPart
  | [], ctx => (.ok [], ctx.msgBatch)
  | (o, f) :: rest, ctx =>
    match f ctx with
    | (.error e, b) => (.error e, b)
    | (.ok v, b) =>
      match sEvalOperands rest (withBatch ctx b) with
      | (.error e, b2) => (.error e, b2)
      | (.ok vs, b2) => (.ok ((o, v) :: vs), b2)

/-- Batch-threading version of `evalStrict`. -/
def sEvalStrict (c : ChainOf SFn) (ctx : FunctionContext) : Except Err Value × List MsgPart :=
  match c.1 ctx with
  | (.error e, b) => (.error e, b)
  | (.ok v, b) =>
    match sEvalOperands c.2 (withBatch ctx b) with
    | (.error e, b2) => (.error e, b2)
    | (.ok ovs, b2) => (strictCollapse v ovs, b2)

/-- Batch-threading version of `andLoop`. -/
def sAndLoop : ChainOf SFn → List (ChainOf SFn) → FunctionContext → Except Err Value × List MsgPart
  | c, [], ctx =>
    match sEvalStrict c ctx with
    | (.error e, b) => (.error e, b)
    | (.ok v, b) => ((asBool v).map Value.vbool, b)
  | c, c2 :: cs, ctx =>
    match sEvalStrict c ctx with
    | (.error e, b) => (.error e, b)
    | (.ok v, b) =>
      match asBool v with
      | .error e => (.error e, b)
      | .ok true => sAndLoop c2 cs (withBatch ctx b)
      | .ok false => (.ok (.vbool false), b)

/-- Batch-threading version of `evalAndChain`. -/
def sEvalAndChain (g : ChainOf SFn) (ctx : FunctionContext) : Except Err Value × List MsgPart :=
  match splitOn (· == Op.and) g.1 g.2 with
  | (c, []) => sEvalStrict c ctx
  | (c, c2 :: cs) => sAndLoop c (c2 :: cs) ctx

/-- Batch-threading version of `orLoop`. -/
def sOrLoop : ChainOf SFn → List (ChainOf SFn) → FunctionContext → Except Err Value × List MsgPart
  | g, [], ctx =>
    match sEvalAndChain g ctx with
    | (.error e, b) => (.error e, b)
    | (.ok v, b) => ((asBool v).map Value.vbool, b)
  | g, g2 :: gs, ctx =>
    match sEvalAndChain g ctx with
    | (.error e, b) => (.error e, b)
    | (.ok v, b) =>
      match asBool v with
      | .error e => (.error e, b)
      | .ok true => (.ok (.vbool true), b)
      | .ok false => sOrLoop g2 gs (withBatch ctx b)

/-- Batch-threading version of `evalOrChain`. -/
def sEvalOrChain (g : ChainOf SFn) (ctx : FunctionContext) : Except Err Value × List MsgPart :=
  match splitOn (· == Op.or) g.1 g.2 with
  | (c, []) => sEvalAndChain c ctx
  | (c, c2 :: cs) => sOrLoop c (c2 :: cs) ctx

/-- Batch-threading version of `pipeLoop`. -/
def sPipeLoop : ChainOf SFn → List (ChainOf SFn) → FunctionContext → Except Err Value × List MsgPart
  | g, [], ctx => sEvalOrChain g ctx
  | g, g2 :: gs, ctx =>
    match sEvalOrChain g ctx with
    | (.error _, b) => sPipeLoop g2 gs (withBatch ctx b)
    | (.ok v, b) =>
      if isSentinel v then sPipeLoop g2 gs (withBatch ctx b) else (.ok v, b)

/-- Batch-threading version of `execArithChain`. -/
def sExecArithChain (hd : SFn) (rest : List (Op × SFn)) : SFn := fun ctx =>
  match splitOn (· == Op.pipe) hd rest with
  | (g, gs) => sPipeLoop g gs ctx

/-- Batch-threading version of `runCases` (query/result pairs). -/
def sRunCases : Nat → List (SFn × SFn) → FunctionContext → Except Err Value × List MsgPart
  | _, [], ctx => (.ok .vabsent, ctx.msgBatch)
  | i, (q, r) :: cs, ctx =>
    match q ctx with
    | (.error e, b) => (.error ("failed to check match case " ++ toString i ++ ": " ++ e), b)
    | (.ok (.vbool true), b) => r (withBatch ctx b)
    | (.ok _, b) => sRunCases (i + 1) cs (withBatch ctx b)

/-- Modelled from the spec: the fuelled, batch-threading evaluation of a
deep expression tree; accessor leaves only read the batch, composite
nodes thread whatever batch their children return.  The fuel bounds the
recursion depth (the spec mandates no intrinsic limit; every theorem
quantifies over the fuel). -/
def execNodeS : Nat → Node → SFn
  | 0, _ => fun ctx => (.error "max expression depth exceeded", ctx.msgBatch)
  | fuel + 1, n =>
    match n with
    | .lit v => fun ctx => (.ok v, ctx.msgBatch)
    | .fieldN p => fun ctx => ((NewFieldFunction p).exec ctx, ctx.msgBatch)
    | .jsonN p => fun ctx => ((NewJSONFunction p).exec ctx, ctx.msgBatch)
    | .metaN k => fun ctx => ((NewMetaFunction k).exec ctx, ctx.msgBatch)
    | .varN nm => fun ctx => ((NewVarFunction nm).exec ctx, ctx.msgBatch)
    | .arithN hd rest => fun ctx =>
      sExecArithChain (execNodeS fuel hd)
        (rest.map (fun p => (p.1, execNodeS fuel p.2))) ctx
    | .ifN c t e => fun ctx =>
      match execNodeS fuel c ctx with
      | (.error msg, b) => (.error ("failed to check if condition: " ++ msg), b)
      | (.ok (.vbool true), b) => execNodeS fuel t (withBatch ctx b)
      | (.ok (.vbool false), b) =>
        match e with
        | some en => execNodeS fuel en (withBatch ctx b)
        | none => (.ok .vabsent, b)
      | (.ok v, b) =>
        (.error ("failed to check if condition: expected bool value, found " ++ typeName v), b)
    | .matchN ce cases => fun ctx =>
      match ce with
      | none => sRunCases 0 (cases.map (fun p => (execNodeS fuel p.1, execNodeS fuel p.2))) ctx
      | some cn =>
        match execNodeS fuel cn ctx with
        | (.error e, b) => (.error e, b)
        | (.ok v, b) =>
          sRunCases 0 (cases.map (fun p => (execNodeS fuel p.1, execNodeS fuel p.2)))
            (withValue (withBatch ctx b) v)

/-- A batch-threading evaluation preserves the batch: whatever context it
is given, the batch it hands back is the one it received. -/
def SPreservesBatch (f : SFn) : Prop :=
  ∀ ctx, (f ctx).2 = ctx.msgBatch

/-- Every element of a sub-chain preserves the batch. -/
def PresChain (c : ChainOf SFn) : Prop :=
  SPreservesBatch c.1 ∧ ∀ p ∈ c.2, SPreservesBatch p.2

/-- The execution context the concrete test evaluations run under: no
scoped value, no variables, message index zero, empty batch — mirroring
the tests' `FunctionContext{Index: 0, MsgBatch: msg}`. -/
def testCtx : FunctionContext := ⟨none, none, 0, []⟩

/-- Singleton sub-chains: each operand alone, with no internal operators. -/
def singleChains {α : Type} (fs : List α) : List (ChainOf α) :=
  fs.map (fun f => (f, []))

theorem withBatch_msgBatch (ctx : FunctionContext) (b : List MsgPart) :
    (withBatch ctx b).msgBatch = b := by
  cases ctx; rfl

theorem withBatch_self (ctx : FunctionContext) : withBatch ctx ctx.msgBatch = ctx := by
  cases ctx; rfl

theorem zip_replicate {α β : Type} (o : α) :
    ∀ (l : List β) (n : Nat), n = l.length →
      (List.replicate n o).zip l = l.map (fun g => (o, g)) := by
  intro l
  induction l with
  | nil => intro n _; simp
  | cons x xs ih =>
    intro n hn
    subst hn
    simp only [List.length_cons, List.replicate_succ, List.zip_cons_cons, List.map_cons]
    rw [ih xs.length rfl]

theorem splitOn_map_false {α : Type} (p : Op → Bool) (o : Op) (ho : p o = false) :
    ∀ (fs : List α) (f : α),
      splitOn p f (fs.map (fun g => (o, g))) = ((f, fs.map (fun g => (o, g))), []) := by
  intro fs
  induction fs with
  | nil => intro f; simp [splitOn]
  | cons x xs ih =>
    intro f
    simp only [List.map_cons, splitOn, ih x, ho]
    simp

theorem splitOn_map_true {α : Type} (p : Op → Bool) (o : Op) (ho : p o = true) :
    ∀ (fs : List α) (f : α),
      splitOn p f (fs.map (fun g => (o, g))) = ((f, []), singleChains fs) := by
  intro fs
  induction fs with
  | nil => intro f; simp [splitOn, singleChains]
  | cons x xs ih =>
    intro f
    simp only [List.map_cons, splitOn, ih x, ho, singleChains]
    simp

theorem evalStrict_sing (f : Fn) (ctx : FunctionContext) :
    evalStrict (f, []) ctx = f ctx := by
  cases h : f ctx <;>
    simp [evalStrict, evalOperands, strictCollapse, collapseTier, h, Bind.bind, Except.bind]

theorem evalAndChain_sing (f : Fn) (ctx : FunctionContext) :
    evalAndChain (f, []) ctx = f ctx := by
  simp [evalAndChain, splitOn, evalStrict_sing]

theorem evalOrChain_sing (f : Fn) (ctx : FunctionContext) :
    evalOrChain (f, []) ctx = f ctx := by
  simp [evalOrChain, splitOn, evalAndChain_sing]

theorem andLoop_false_now (g : Fn) (rest : List Fn) (ctx : FunctionContext)
    (hg : g ctx = .ok (.vbool false)) :
    andLoop (g, []) (singleChains rest) ctx = .ok (.vbool false) := by
  cases rest with
  | nil => simp [singleChains, andLoop, evalStrict_sing, hg, asBool, Bind.bind, Except.bind]
  | cons r rs => simp [singleChains, andLoop, evalStrict_sing, hg, asBool, Bind.bind, Except.bind]

theorem andLoop_chain :
    ∀ (pre : List Fn) (g : Fn) (rest : List Fn) (ctx : FunctionContext),
      (∀ q ∈ pre, q ctx = .ok (.vbool true)) → g ctx = .ok (.vbool false) →
      andLoop (List.headD (pre ++ g :: rest) g, [])
        (singleChains (pre ++ g :: rest).tail) ctx = .ok (.vbool false) := by
  intro pre
  induction pre with
  | nil =>
    intro g rest ctx _ hg
    simpa using andLoop_false_now g rest ctx hg
  | cons p ps ih =>
    intro g rest ctx hpre hg
    have hp : p ctx = .ok (.vbool true) := hpre p (List.mem_cons_self p ps)
    have hps : ∀ q ∈ ps, q ctx = .ok (.vbool true) := fun q hq => hpre q (List.mem_cons_of_mem p hq)
    cases hL : ps ++ g :: rest with
    | nil => exact absurd hL (by simp)
    | cons h t =>
      have ihr := ih g rest ctx hps hg
      rw [hL] at ihr
      simp only [List.headD, List.tail] at ihr
      simp only [List.cons_append, List.headD, List.tail, hL, singleChains, List.map_cons]
      rw [show andLoop (p, []) ((h, []) :: List.map (fun f => (f, [])) t) ctx
            = andLoop (h, []) (List.map (fun f => (f, [])) t) ctx from ?_]
      · simpa [singleChains] using ihr
      · simp [andLoop, evalStrict_sing, hp, asBool, Bind.bind, Except.bind]

theorem orLoop_true_now (g : Fn) (rest : List Fn) (ctx : FunctionContext)
    (hg : g ctx = .ok (.vbool true)) :
    orLoop (g, []) (singleChains rest) ctx = .ok (.vbool true) := by
  cases rest with
  | nil => simp [singleChains, orLoop, evalAndChain_sing, hg, asBool, Bind.bind, Except.bind]
  | cons r rs => simp [singleChains, orLoop, evalAndChain_sing, hg, asBool, Bind.bind, Except.bind]

theorem orLoop_chain :
    ∀ (pre : List Fn) (g : Fn) (rest : List Fn) (ctx : FunctionContext),
      (∀ q ∈ pre, q ctx = .ok (.vbool false)) → g ctx = .ok (.vbool true) →
      orLoop (List.headD (pre ++ g :: rest) g, [])
        (singleChains (pre ++ g :: rest).tail) ctx = .ok (.vbool true) := by
  intro pre
  induction pre with
  | nil =>
    intro g rest ctx _ hg
    simpa using orLoop_true_now g rest ctx hg
  | cons p ps ih =>
    intro g rest ctx hpre hg
    have hp : p ctx = .ok (.vbool false) := hpre p (List.mem_cons_self p ps)
    have hps : ∀ q ∈ ps, q ctx = .ok (.vbool false) := fun q hq => hpre q (List.mem_cons_of_mem p hq)
    cases hL : ps ++ g :: rest with
    | nil => exact absurd hL (by simp)
    | cons h t =>
      have ihr := ih g rest ctx hps hg
      rw [hL] at ihr
      simp only [List.headD, List.tail] at ihr
      simp only [List.cons_append, List.headD, List.tail, hL, singleChains, List.map_cons]
      rw [show orLoop (p, []) ((h, []) :: List.map (fun f => (f, [])) t) ctx
            = orLoop (h, []) (List.map (fun f => (f, [])) t) ctx from ?_]
      · simpa [singleChains] using ihr
      · simp [orLoop, evalAndChain_sing, hp, asBool, Bind.bind, Except.bind]

theorem pipeLoop_first (g : Fn) (rest : List Fn) (ctx : FunctionContext) (v : Value)
    (hg : g ctx = .ok v) (hv : isSentinel v = false) :
    pipeLoop (g, []) (singleChains rest) ctx = .ok v := by
  cases rest with
  | nil => simp [singleChains, pipeLoop, evalOrChain_sing, hg]
  | cons r rs => simp [singleChains, pipeLoop, evalOrChain_sing, hg, hv]

theorem pipeLoop_chain :
    ∀ (pre : List Fn) (g : Fn) (rest : List Fn) (ctx : FunctionContext) (v : Value),
      (∀ q ∈ pre, Skippable (q ctx)) → g ctx = .ok v → isSentinel v = false →
      pipeLoop (List.headD (pre ++ g :: rest) g, [])
        (singleChains (pre ++ g :: rest).tail) ctx = .ok v := by
  intro pre
  induction pre with
  | nil =>
    intro g rest ctx v _ hg hv
    simpa using pipeLoop_first g rest ctx v hg hv
  | cons p ps ih =>
    intro g rest ctx v hpre hg hv
    have hp : Skippable (p ctx) := hpre p (List.mem_cons_self p ps)
    have hps : ∀ q ∈ ps, Skippable (q ctx) := fun q hq => hpre q (List.mem_cons_of_mem p hq)
    cases hL : ps ++ g :: rest with
    | nil => exact absurd hL (by simp)
    | cons h t =>
      have ihr := ih g rest ctx v hps hg hv
      rw [hL] at ihr
      simp only [List.headD, List.tail] at ihr
      simp only [List.cons_append, List.headD, List.tail, hL, singleChains, List.map_cons]
      rw [show pipeLoop (p, []) ((h, []) :: List.map (fun f => (f, [])) t) ctx
            = pipeLoop (h, []) (List.map (fun f => (f, [])) t) ctx from ?_]
      · simpa [singleChains] using ihr
      · cases hpc : p ctx with
        | error e => simp [pipeLoop, evalOrChain_sing, hpc]
        | ok w =>
          have hw : isSentinel w = true := by
            have := hp
            rw [hpc] at this
            exact this
          simp [pipeLoop, evalOrChain_sing, hpc, hw]

theorem pipeLoop_final :
    ∀ (pre : List Fn) (g : Fn) (ctx : FunctionContext),
      (∀ q ∈ pre, Skippable (q ctx)) →
      pipeLoop (List.headD (pre ++ [g]) g, [])
        (singleChains (pre ++ [g]).tail) ctx = g ctx := by
  intro pre
  induction pre with
  | nil =>
    intro g ctx _
    simp [singleChains, pipeLoop, evalOrChain_sing]
  | cons p ps ih =>
    intro g ctx hpre
    have hp : Skippable (p ctx) := hpre p (List.mem_cons_self p ps)
    have hps : ∀ q ∈ ps, Skippable (q ctx) := fun q hq => hpre q (List.mem_cons_of_mem p hq)
    cases hL : ps ++ [g] with
    | nil => exact absurd hL (by simp)
    | cons h t =>
      have ihr := ih g ctx hps
      rw [hL] at ihr
      simp only [List.headD, List.tail] at ihr
      simp only [List.cons_append, List.headD, List.tail, hL, singleChains, List.map_cons]
      rw [show pipeLoop (p, []) ((h, []) :: List.map (fun f => (f, [])) t) ctx
            = pipeLoop (h, []) (List.map (fun f => (f, [])) t) ctx from ?_]
      · simpa [singleChains] using ihr
      · cases hpc : p ctx with
        | error e => simp [pipeLoop, evalOrChain_sing, hpc]
        | ok w =>
          have hw : isSentinel w = true := by
            have := hp
            rw [hpc] at this
            exact this
          simp [pipeLoop, evalOrChain_sing, hpc, hw]

theorem evalAndChain_sc :
    ∀ (pre : List Fn) (g : Fn) (rest : List Fn) (ctx : FunctionContext),
      (∀ q ∈ pre, q ctx = .ok (.vbool true)) → g ctx = .ok (.vbool false) →
      evalAndChain (List.headD (pre ++ g :: rest) g,
        ((pre ++ g :: rest).tail).map (fun q => (Op.and, q))) ctx = .ok (.vbool false) := by
  intro pre g rest ctx hpre hg
  cases pre with
  | nil =>
    cases rest with
    | nil => simpa [evalAndChain_sing] using hg
    | cons r rs =>
      simp only [List.nil_append, List.headD, List.tail]
      unfold evalAndChain
      rw [splitOn_map_true (· == Op.and) Op.and (by decide)]
      have hnow := andLoop_false_now g (r :: rs) ctx hg
      simp only [singleChains, List.map_cons] at hnow ⊢
      exact hnow
  | cons p ps =>
    simp only [List.cons_append, List.headD, List.tail]
    cases hL : ps ++ g :: rest with
    | nil => exact absurd hL (by simp)
    | cons h t =>
      unfold evalAndChain
      rw [splitOn_map_true (· == Op.and) Op.and (by decide)]
      have hch := andLoop_chain (p :: ps) g rest ctx hpre hg
      simp only [List.cons_append, List.headD, List.tail, hL] at hch
      simp only [singleChains, List.map_cons] at hch ⊢
      exact hch

theorem evalOrChain_sc :
    ∀ (pre : List Fn) (g : Fn) (rest : List Fn) (ctx : FunctionContext),
      (∀ q ∈ pre, q ctx = .ok (.vbool false)) → g ctx = .ok (.vbool true) →
      evalOrChain (List.headD (pre ++ g :: rest) g,
        ((pre ++ g :: rest).tail).map (fun q => (Op.or, q))) ctx = .ok (.vbool true) := by
  intro pre g rest ctx hpre hg
  cases pre with
  | nil =>
    cases rest with
    | nil => simpa [evalOrChain_sing] using hg
    | cons r rs =>
      simp only [List.nil_append, List.headD, List.tail]
      unfold evalOrChain
      rw [splitOn_map_true (· == Op.or) Op.or (by decide)]
      have hnow := orLoop_true_now g (r :: rs) ctx hg
      simp only [singleChains, List.map_cons] at hnow ⊢
      exact hnow
  | cons p ps =>
    simp only [List.cons_append, List.headD, List.tail]
    cases hL : ps ++ g :: rest with
    | nil => exact absurd hL (by simp)
    | cons h t =>
      unfold evalOrChain
      rw [splitOn_map_true (· == Op.or) Op.or (by decide)]
      have hch := orLoop_chain (p :: ps) g rest ctx hpre hg
      simp only [List.cons_append, List.headD, List.tail, hL] at hch
      simp only [singleChains, List.map_cons] at hch ⊢
      exact hch

theorem execArith_and_route (hd : Fn) (tailFns : List Fn) (ctx : FunctionContext) :
    execArithChain hd (tailFns.map (fun q => (Op.and, q))) ctx
      = evalAndChain (hd, tailFns.map (fun q => (Op.and, q))) ctx := by
  unfold execArithChain
  rw [splitOn_map_false (· == Op.pipe) Op.and (by decide)]
  show pipeLoop (hd, tailFns.map (fun q => (Op.and, q))) [] ctx = _
  unfold pipeLoop evalOrChain
  rw [splitOn_map_false (· == Op.or) Op.and (by decide)]

theorem execArith_or_route (hd : Fn) (tailFns : List Fn) (ctx : FunctionContext) :
    execArithChain hd (tailFns.map (fun q => (Op.or, q))) ctx
      = evalOrChain (hd, tailFns.map (fun q => (Op.or, q))) ctx := by
  unfold execArithChain
  rw [splitOn_map_false (· == Op.pipe) Op.or (by decide)]
  show pipeLoop (hd, tailFns.map (fun q => (Op.or, q))) [] ctx = _
  unfold pipeLoop
  rfl

theorem execArith_pipe_route (hd : Fn) (tailFns : List Fn) (ctx : FunctionContext) :
    execArithChain hd (tailFns.map (fun q => (Op.pipe, q))) ctx
      = pipeLoop (hd, []) (singleChains tailFns) ctx := by
  unfold execArithChain
  rw [splitOn_map_true (· == Op.pipe) Op.pipe (by decide)]

theorem newArith_ok (hd : Function) (tl : List Function) (ops : List Op) (f : Function)
    (h : NewArithmeticExpression (hd :: tl) ops = .ok f) :
    tl.length = ops.length ∧
    f.exec = execArithChain hd.exec (ops.zip (tl.map Function.exec)) ∧
    f.targets = foldTargets (hd :: tl) := by
  have h2 : (if tl.length = ops.length then
      (Except.ok ⟨execArithChain hd.exec (ops.zip (tl.map Function.exec)),
        foldTargets (hd :: tl)⟩ : Except Err Function)
    else .error "mismatch of operands and operators") = .ok f := h
  by_cases hlen : tl.length = ops.length
  · rw [if_pos hlen] at h2
    injection h2 with h1
    subst h1
    exact ⟨hlen, rfl, rfl⟩
  · rw [if_neg hlen] at h2
    exact absurd h2 (by simp)

theorem goToList_goAppend (a b : GoPaths) :
    goToList (goAppend a b) = goToList a ++ goToList b := by
  cases b with
  | none => simp [goAppend, goToList]
  | some bs =>
    cases bs with
    | nil => simp [goAppend, goToList]
    | cons x xs =>
      cases a with
      | none => simp [goAppend, goToList]
      | some as_ => simp [goAppend, goToList]

theorem foldTargets_toList :
    ∀ (fns : List Function) (acc : GoPaths),
      goToList (fns.foldl (fun a g => goAppend a g.targets) acc)
        = goToList acc ++ (fns.map (fun g => goToList g.targets)).flatten := by
  intro fns
  induction fns with
  | nil => intro acc; simp
  | cons f fs ih =>
    intro acc
    simp only [List.foldl_cons, List.map_cons, List.flatten]
    rw [ih (goAppend acc f.targets), goToList_goAppend]
    simp [List.append_assoc]

theorem foldTargets_none :
    ∀ (fns : List Function), (∀ g ∈ fns, g.targets = none) → foldTargets fns = none := by
  intro fns
  induction fns with
  | nil => intro _; rfl
  | cons f fs ih =>
    intro h
    have hf : f.targets = none := h f (List.mem_cons_self f fs)
    have hfs : ∀ g ∈ fs, g.targets = none := fun g hg => h g (List.mem_cons_of_mem f hg)
    show (f :: fs).foldl (fun a g => goAppend a g.targets) none = none
    simp only [List.foldl_cons, hf]
    exact ih hfs

/-- C1: for a flat arithmetic expression the tiered reduction (with
precedence {Mul,Div,Mod} > {Add,Sub} > comparisons > And > Or > Pipe,
collapsing left to right within a tier) applies; in particular the
operands [2, 3, 2.0, 1, 3] joined by [Add, Mul, Add, Mul] evaluate to
the float64 value 11, whereas naive left-to-right folding of the same
chain would give the float64 value 33, a different result. -/
theorem c1_tiered_precedence :
    (NewArithmeticExpression
        [NewLiteralFunction (.vint 2), NewLiteralFunction (.vint 3),
         NewLiteralFunction (.vfloat ⟨2, 1⟩), NewLiteralFunction (.vuint 1),
         NewLiteralFunction (.vuint 3)]
        [.add, .mul, .add, .mul]).map (fun f => f.exec testCtx)
      = .ok (.ok (.vfloat ⟨11, 1⟩)) ∧
    naiveExec (NewLiteralFunction (.vint 2)).exec
        [(.add, (NewLiteralFunction (.vint 3)).exec),
         (.mul, (NewLiteralFunction (.vfloat ⟨2, 1⟩)).exec),
         (.add, (NewLiteralFunction (.vuint 1)).exec),
         (.mul, (NewLiteralFunction (.vuint 3)).exec)]
        testCtx = .ok (.vfloat ⟨33, 1⟩) ∧
    Value.vfloat ⟨11, 1⟩ ≠ Value.vfloat ⟨33, 1⟩ := by
  refine ⟨rfl, rfl, ?_⟩
  intro h
  injection h with h2
  exact absurd h2 (by decide)

/-- C8: for every Div or Mod application whose divisor operand is
numerically equal to zero — whatever the numeric operand subtypes — the
evaluation fails with the exact error text "attempted to divide by
zero", the same for both operators; the same holds for a two-operand
arithmetic chain routed through the tiered reduction. -/
theorem c8_divide_by_zero :
    (∀ (v w : Value) (a b : NumV), toNum v = some a → toNum w = some b →
      b.toF.num = 0 →
      applyBinOp .div v w = .error "attempted to divide by zero" ∧
      applyBinOp .mod v w = .error "attempted to divide by zero") ∧
    (∀ (F G : Function) (ctx : FunctionContext) (f : Function) (v w : Value) (a b : NumV),
      NewArithmeticExpression [F, G] [.div] = .ok f →
      F.exec ctx = .ok v → G.exec ctx = .ok w →
      toNum v = some a → toNum w = some b → b.toF.num = 0 →
      f.exec ctx = .error "attempted to divide by zero") ∧
    (∀ (F G : Function) (ctx : FunctionContext) (f : Function) (v w : Value) (a b : NumV),
      NewArithmeticExpression [F, G] [.mod] = .ok f →
      F.exec ctx = .ok v → G.exec ctx = .ok w →
      toNum v = some a → toNum w = some b → b.toF.num = 0 →
      f.exec ctx = .error "attempted to divide by zero") := by
  have hbin : ∀ (v w : Value) (a b : NumV), toNum v = some a → toNum w = some b →
      b.toF.num = 0 →
      applyBinOp .div v w = .error "attempted to divide by zero" ∧
      applyBinOp .mod v w = .error "attempted to divide by zero" := by
    intro v w a b hv hw hb
    constructor <;> simp [applyBinOp, hv, hw, hb]
  refine ⟨hbin, ?_, ?_⟩
  · intro F G ctx f v w a b hok hF hG hv hw hb
    obtain ⟨_, hexec, _⟩ := newArith_ok F [G] [.div] f hok
    rw [hexec]
    have hdiv := (hbin v w a b hv hw hb).1
    simp [execArithChain, splitOn, pipeLoop, evalOrChain, evalAndChain, evalStrict,
      evalOperands, strictCollapse, collapseTier, isMulTier, hF, hG, hdiv,
      Bind.bind, Except.bind, List.zip]
  · intro F G ctx f v w a b hok hF hG hv hw hb
    obtain ⟨_, hexec, _⟩ := newArith_ok F [G] [.mod] f hok
    rw [hexec]
    have hmod := (hbin v w a b hv hw hb).2
    simp [execArithChain, splitOn, pipeLoop, evalOrChain, evalAndChain, evalStrict,
      evalOperands, strictCollapse, collapseTier, isMulTier, hF, hG, hmod,
      Bind.bind, Except.bind, List.zip]

/-- C8 witness: dividing the int64 literal 5 by the int64 literal 0 (and
likewise taking its modulus) fails with the exact documented text. -/
theorem c8_witness :
    toNum (.vint 0) = some (NumV.i 0) ∧ (NumV.i 0).toF.num = 0 ∧
    applyBinOp .div (.vint 5) (.vint 0) = .error "attempted to divide by zero" ∧
    applyBinOp .mod (.vint 5) (.vint 0) = .error "attempted to divide by zero" ∧
    (NewArithmeticExpression [NewLiteralFunction (.vint 5), NewLiteralFunction (.vint 0)]
      [.div]).map (fun f => f.exec testCtx) = .ok (.error "attempted to divide by zero") ∧
    (NewArithmeticExpression [NewLiteralFunction (.vint 5), NewLiteralFunction (.vint 0)]
      [.mod]).map (fun f => f.exec testCtx) = .ok (.error "attempted to divide by zero") := by
  refine ⟨rfl, rfl, ?_, ?_, ?_, ?_⟩
  · exact (c8_divide_by_zero.1 (.vint 5) (.vint 0) (.i 5) (.i 0) rfl rfl rfl).1
  · exact (c8_divide_by_zero.1 (.vint 5) (.vint 0) (.i 5) (.i 0) rfl rfl rfl).2
  · have h := c8_divide_by_zero.2.1 (NewLiteralFunction (.vint 5)) (NewLiteralFunction (.vint 0))
      testCtx ⟨execArithChain (NewLiteralFunction (.vint 5)).exec
          ([Op.div].zip ([NewLiteralFunction (.vint 0)].map Function.exec)),
        foldTargets [NewLiteralFunction (.vint 5), NewLiteralFunction (.vint 0)]⟩
      (.vint 5) (.vint 0) (.i 5) (.i 0) rfl rfl rfl rfl rfl rfl
    exact congrArg Except.ok h
  · have h := c8_divide_by_zero.2.2 (NewLiteralFunction (.vint 5)) (NewLiteralFunction (.vint 0))
      testCtx ⟨execArithChain (NewLiteralFunction (.vint 5)).exec
          ([Op.mod].zip ([NewLiteralFunction (.vint 0)].map Function.exec)),
        foldTargets [NewLiteralFunction (.vint 5), NewLiteralFunction (.vint 0)]⟩
      (.vint 5) (.vint 0) (.i 5) (.i 0) rfl rfl rfl rfl rfl rfl
    exact congrArg Except.ok h

/-- C9: the targets of an arithmetic expression are the left-to-right
concatenation of its operands' targets; the operators (Pipe included)
have no effect on the reported targets; and an expression none of whose
operands contributes a target reports the nil slice (a true absence),
never a non-nil empty container. -/
theorem c9_arith_targets :
    (∀ (fns : List Function) (ops : List Op) (f : Function),
      NewArithmeticExpression fns ops = .ok f →
      goToList f.targets = (fns.map (fun g => goToList g.targets)).flatten) ∧
    (∀ (fns : List Function) (ops ops2 : List Op) (f g : Function),
      NewArithmeticExpression fns ops = .ok f →
      NewArithmeticExpression fns ops2 = .ok g →
      f.targets = g.targets) ∧
    (∀ (fns : List Function) (ops : List Op) (f : Function),
      NewArithmeticExpression fns ops = .ok f →
      (∀ g ∈ fns, g.targets = none) →
      f.targets = none) := by
  refine ⟨?_, ?_, ?_⟩
  · intro fns ops f hok
    cases fns with
    | nil => exact absurd hok (by simp [NewArithmeticExpression])
    | cons hd tl =>
      obtain ⟨_, _, htg⟩ := newArith_ok hd tl ops f hok
      rw [htg]
      have := foldTargets_toList (hd :: tl) none
      simpa [foldTargets] using this
  · intro fns ops ops2 f g hok hok2
    cases fns with
    | nil => exact absurd hok (by simp [NewArithmeticExpression])
    | cons hd tl =>
      obtain ⟨_, _, htg⟩ := newArith_ok hd tl ops f hok
      obtain ⟨_, _, htg2⟩ := newArith_ok hd tl ops2 g hok2
      rw [htg, htg2]
  · intro fns ops f hok hnone
    cases fns with
    | nil => exact absurd hok (by simp [NewArithmeticExpression])
    | cons hd tl =>
      obtain ⟨_, _, htg⟩ := newArith_ok hd tl ops f hok
      rw [htg]
      exact foldTargets_none (hd :: tl) hnone

/-- C9 witness: a chain of two literals reports the nil target slice, a
Pipe of a metadata and a variable accessor reports both targets in
operand order, and swapping the operator leaves the targets unchanged. -/
theorem c9_witness :
    (NewArithmeticExpression [NewLiteralFunction (.vint 5), NewLiteralFunction (.vstr "bar")]
        [.add]).map Function.targets = .ok none ∧
    (NewArithmeticExpression [NewMetaFunction "foo", NewVarFunction "bar"]
        [.pipe]).map Function.targets
      = .ok (some [⟨.metadata, ["foo"]⟩, ⟨.variable, ["bar"]⟩]) ∧
    (NewArithmeticExpression [NewMetaFunction "foo", NewVarFunction "bar"]
        [.add]).map Function.targets
      = .ok (some [⟨.metadata, ["foo"]⟩, ⟨.variable, ["bar"]⟩]) := by
  have h1 := c9_arith_targets.2.2
    [NewLiteralFunction (.vint 5), NewLiteralFunction (.vstr "bar")] [.add]
    ⟨execArithChain (NewLiteralFunction (.vint 5)).exec
        ([Op.add].zip ([NewLiteralFunction (.vstr "bar")].map Function.exec)),
      foldTargets [NewLiteralFunction (.vint 5), NewLiteralFunction (.vstr "bar")]⟩
    rfl (by intro g hg; simp [NewLiteralFunction] at hg ⊢; rcases hg with h | h <;> rw [h])
  have h2 := c9_arith_targets.2.1
    [NewMetaFunction "foo", NewVarFunction "bar"] [.pipe] [.add]
    ⟨execArithChain (NewMetaFunction "foo").exec
        ([Op.pipe].zip ([NewVarFunction "bar"].map Function.exec)),
      foldTargets [NewMetaFunction "foo", NewVarFunction "bar"]⟩
    ⟨execArithChain (NewMetaFunction "foo").exec
        ([Op.add].zip ([NewVarFunction "bar"].map Function.exec)),
      foldTargets [NewMetaFunction "foo", NewVarFunction "bar"]⟩
    rfl rfl
  exact ⟨congrArg Except.ok h1, rfl, rfl⟩

theorem matchCaseFold_toList :
    ∀ (cases : List MatchCase) (acc : GoPaths),
      goToList (cases.foldl
          (fun acc c => goAppend (goAppend acc c.query.targets) c.result.targets) acc)
        = goToList acc
          ++ (cases.map (fun c => goToList c.query.targets ++ goToList c.result.targets)).flatten := by
  intro cases
  induction cases with
  | nil => intro acc; simp
  | cons c cs ih =>
    intro acc
    simp only [List.foldl_cons, List.map_cons, List.flatten]
    rw [ih (goAppend (goAppend acc c.query.targets) c.result.targets),
      goToList_goAppend, goToList_goAppend]
    simp [List.append_assoc]

theorem prefix_map_toList (P : List String) (x : GoPaths) :
    goToList (Option.map (prefixValuePaths P) x) = prefixValuePaths P (goToList x) := by
  cases x with
  | none => simp [goToList, prefixValuePaths]
  | some l => rfl

/-- C4: Match target analysis reports, for each case in order, the case
query's targets then the case result's targets; when the context is a
value-path accessor with path P, every Value-kind case target is
prefixed with P while Metadata- and Variable-kind targets are left
untouched; the context's own target is appended at the very end; for a
non-value-path context (a metadata accessor) no prefixing occurs but its
target is still appended last; an absent context contributes neither. -/
theorem c4_match_targets :
    (∀ (cases : List MatchCase),
      goToList (NewMatchFunction none cases).targets
        = (cases.map (fun c => goToList c.query.targets ++ goToList c.result.targets)).flatten) ∧
    (∀ (ce : Function) (P : List String) (cases : List MatchCase),
      ce.targets = some [⟨.value, P⟩] →
      goToList (NewMatchFunction (some ce) cases).targets
        = ((cases.map (fun c => goToList c.query.targets ++ goToList c.result.targets)).flatten.map
            (fun tp => match tp.kind with
              | .value => (⟨.value, P ++ tp.path⟩ : TargetPath)
              | _ => tp)) ++ [⟨.value, P⟩]) ∧
    (∀ (ce : Function) (K : String) (cases : List MatchCase),
      ce.targets = some [⟨.metadata, [K]⟩] →
      goToList (NewMatchFunction (some ce) cases).targets
        = (cases.map (fun c => goToList c.query.targets ++ goToList c.result.targets)).flatten
            ++ [⟨.metadata, [K]⟩]) := by
  refine ⟨?_, ?_, ?_⟩
  · intro cases
    show goToList (matchTargets none cases) = _
    unfold matchTargets
    simpa using matchCaseFold_toList cases none
  · intro ce P cases hce
    show goToList (matchTargets (some ce) cases) = _
    simp only [matchTargets, hce, contextPrefix]
    rw [goToList_goAppend, prefix_map_toList]
    have hfold := matchCaseFold_toList cases none
    rw [show goToList (none : GoPaths) = [] from rfl, List.nil_append] at hfold
    rw [hfold]
    rfl
  · intro ce K cases hce
    show goToList (matchTargets (some ce) cases) = _
    simp only [matchTargets, hce, contextPrefix]
    rw [goToList_goAppend]
    have hfold := matchCaseFold_toList cases none
    rw [show goToList (none : GoPaths) = [] from rfl, List.nil_append] at hfold
    rw [hfold]
    rfl

/-- C4 witness: the tests' concrete Match nodes — value-path context
`foo.bar` prefixes only the Value-kind case targets and appends its own
target last; a metadata context prefixes nothing; an absent context
reports only the case targets. -/
theorem c4_witness :
    (NewFieldFunction "foo.bar").targets = some [⟨.value, ["foo", "bar"]⟩] ∧
    goToList (NewMatchFunction (some (NewFieldFunction "foo.bar"))
        [NewMatchCase (NewMetaFunction "bar") (NewFieldFunction "baz.buz"),
         NewMatchCase (NewFieldFunction "qux.quz") (NewLiteralFunction (.vstr "quack"))]).targets
      = [⟨.metadata, ["bar"]⟩, ⟨.value, ["foo", "bar", "baz", "buz"]⟩,
         ⟨.value, ["foo", "bar", "qux", "quz"]⟩, ⟨.value, ["foo", "bar"]⟩] ∧
    goToList (NewMatchFunction (some (NewMetaFunction "foo"))
        [NewMatchCase (NewMetaFunction "bar") (NewFieldFunction "baz"),
         NewMatchCase (NewFieldFunction "buz") (NewLiteralFunction (.vstr "qux"))]).targets
      = [⟨.metadata, ["bar"]⟩, ⟨.value, ["baz"]⟩, ⟨.value, ["buz"]⟩, ⟨.metadata, ["foo"]⟩] ∧
    goToList (NewMatchFunction none
        [NewMatchCase (NewFieldFunction "foo") (NewFieldFunction "bar"),
         NewMatchCase (NewFieldFunction "baz") (NewFieldFunction "buz")]).targets
      = [⟨.value, ["foo"]⟩, ⟨.value, ["bar"]⟩, ⟨.value, ["baz"]⟩, ⟨.value, ["buz"]⟩] := by
  refine ⟨rfl, ?_, ?_, ?_⟩
  · rw [c4_match_targets.2.1 (NewFieldFunction "foo.bar") ["foo", "bar"]
      [NewMatchCase (NewMetaFunction "bar") (NewFieldFunction "baz.buz"),
       NewMatchCase (NewFieldFunction "qux.quz") (NewLiteralFunction (.vstr "quack"))] rfl]
    rfl
  · rw [c4_match_targets.2.2 (NewMetaFunction "foo") "foo"
      [NewMatchCase (NewMetaFunction "bar") (NewFieldFunction "baz"),
       NewMatchCase (NewFieldFunction "buz") (NewLiteralFunction (.vstr "qux"))] rfl]
    rfl
  · rw [c4_match_targets.1
      [NewMatchCase (NewFieldFunction "foo") (NewFieldFunction "bar"),
       NewMatchCase (NewFieldFunction "baz") (NewFieldFunction "buz")]]
    rfl

theorem runCases_skip :
    ∀ (pre : List MatchCase) (i : Nat) (cs : List MatchCase) (ctx : FunctionContext),
      (∀ c ∈ pre, ∃ u, c.query.exec ctx = .ok u ∧ u ≠ .vbool true) →
      runCases i (pre ++ cs) ctx = runCases (i + pre.length) cs ctx := by
  intro pre
  induction pre with
  | nil => intro i cs ctx _; simp
  | cons c pre2 ih =>
    intro i cs ctx h
    obtain ⟨u, hu, hne⟩ := h c (List.mem_cons_self c pre2)
    have h2 : ∀ c2 ∈ pre2, ∃ u, c2.query.exec ctx = .ok u ∧ u ≠ .vbool true :=
      fun c2 hc2 => h c2 (List.mem_cons_of_mem c hc2)
    have step : runCases i ((c :: pre2) ++ cs) ctx = runCases (i + 1) (pre2 ++ cs) ctx := by
      cases u with
      | vbool b =>
        cases b with
        | false => simp [runCases, hu]
        | true => exact absurd rfl hne
      | vnull => simp [runCases, hu]
      | vint n => simp [runCases, hu]
      | vuint n => simp [runCases, hu]
      | vfloat q => simp [runCases, hu]
      | vstr z => simp [runCases, hu]
      | varr l => simp [runCases, hu]
      | vobj l => simp [runCases, hu]
      | vabsent => simp [runCases, hu]
      | vdelete => simp [runCases, hu]
    rw [step, ih (i + 1) cs ctx h2]
    have : i + 1 + pre2.length = i + (c :: pre2).length := by simp; omega
    rw [this]

theorem match_case_error_lemma (ce : Function) (cv : Value) (pre : List MatchCase)
    (q r : Function) (rest : List MatchCase) (ctx : FunctionContext) (e : Err)
    (hce : ce.exec ctx = .ok cv)
    (hpre : ∀ c ∈ pre, ∃ u, c.query.exec (withValue ctx cv) = .ok u ∧ u ≠ .vbool true)
    (hq : q.exec (withValue ctx cv) = .error e) :
    (NewMatchFunction (some ce) (pre ++ ⟨q, r⟩ :: rest)).exec ctx
      = .error ("failed to check match case " ++ toString pre.length ++ ": " ++ e) := by
  show ((match ce.exec ctx with
        | Except.error e => Except.error e
        | Except.ok v => runCases 0 (pre ++ ⟨q, r⟩ :: rest) (withValue ctx v)) : Except Err Value) = _
  rw [hce]
  show runCases 0 (pre ++ ⟨q, r⟩ :: rest) (withValue ctx cv) = _
  rw [runCases_skip pre 0 (⟨q, r⟩ :: rest) (withValue ctx cv) hpre]
  simp [runCases, hq]

theorem match_case_true_lemma (ce : Function) (cv : Value) (pre : List MatchCase)
    (q r : Function) (rest : List MatchCase) (ctx : FunctionContext)
    (hce : ce.exec ctx = .ok cv)
    (hpre : ∀ c ∈ pre, ∃ u, c.query.exec (withValue ctx cv) = .ok u ∧ u ≠ .vbool true)
    (hq : q.exec (withValue ctx cv) = .ok (.vbool true)) :
    (NewMatchFunction (some ce) (pre ++ ⟨q, r⟩ :: rest)).exec ctx
      = r.exec (withValue ctx cv) := by
  show ((match ce.exec ctx with
        | Except.error e => Except.error e
        | Except.ok v => runCases 0 (pre ++ ⟨q, r⟩ :: rest) (withValue ctx v)) : Except Err Value) = _
  rw [hce]
  show runCases 0 (pre ++ ⟨q, r⟩ :: rest) (withValue ctx cv) = _
  rw [runCases_skip pre 0 (⟨q, r⟩ :: rest) (withValue ctx cv) hpre]
  simp [runCases, hq]

/-- C5: Match evaluates case queries in order under the re-scoped
context; an error in some case query fails the whole Match immediately
(with that case's zero-based index in the wrap), whatever the later
cases would do; the first case whose query yields boolean true has its
result evaluated under the same re-scoped context and returned, and the
later cases — erroring or not — are never evaluated. -/
theorem c5_match_exec_order :
    (∀ (ce : Function) (cv : Value) (pre : List MatchCase) (q r : Function)
       (rest : List MatchCase) (ctx : FunctionContext) (e : Err),
      ce.exec ctx = .ok cv →
      (∀ c ∈ pre, ∃ u, c.query.exec (withValue ctx cv) = .ok u ∧ u ≠ .vbool true) →
      q.exec (withValue ctx cv) = .error e →
      (NewMatchFunction (some ce) (pre ++ ⟨q, r⟩ :: rest)).exec ctx
        = .error ("failed to check match case " ++ toString pre.length ++ ": " ++ e)) ∧
    (∀ (ce : Function) (cv : Value) (pre : List MatchCase) (q r : Function)
       (rest : List MatchCase) (ctx : FunctionContext),
      ce.exec ctx = .ok cv →
      (∀ c ∈ pre, ∃ u, c.query.exec (withValue ctx cv) = .ok u ∧ u ≠ .vbool true) →
      q.exec (withValue ctx cv) = .ok (.vbool true) →
      (NewMatchFunction (some ce) (pre ++ ⟨q, r⟩ :: rest)).exec ctx
        = r.exec (withValue ctx cv)) := by
  constructor
  · intro ce cv pre q r rest ctx e hce hpre hq
    exact match_case_error_lemma ce cv pre q r rest ctx e hce hpre hq
  · intro ce cv pre q r rest ctx hce hpre hq
    exact match_case_true_lemma ce cv pre q r rest ctx hce hpre hq

/-- C5 witness: the tests' concrete Match nodes — a failing first case
aborts the whole Match with the wrapped index-0 error even though the
second case would match, and a matched first case returns its result
while the erroring second case is never evaluated. -/
theorem c5_witness :
    (NewMatchFunction (some (NewLiteralFunction (.vstr "context")))
        [NewMatchCase (NewVarFunction "doesnt exist") (NewLiteralFunction (.vstr "foo")),
         NewMatchCase (NewLiteralFunction (.vbool true)) (NewLiteralFunction (.vstr "bar"))]).exec
        testCtx
      = .error "failed to check match case 0: variables were undefined" ∧
    (NewMatchFunction (some (NewLiteralFunction (.vstr "context")))
        [NewMatchCase (NewLiteralFunction (.vbool true)) (NewLiteralFunction (.vstr "bar")),
         NewMatchCase (NewVarFunction "doesnt exist") (NewLiteralFunction (.vstr "foo"))]).exec
        testCtx
      = .ok (.vstr "bar") := by
  constructor
  · have h := c5_match_exec_order.1 (NewLiteralFunction (.vstr "context")) (.vstr "context")
      [] (NewVarFunction "doesnt exist") (NewLiteralFunction (.vstr "foo"))
      [NewMatchCase (NewLiteralFunction (.vbool true)) (NewLiteralFunction (.vstr "bar"))]
      testCtx "variables were undefined" rfl (by intro c hc; simp at hc) rfl
    exact h
  · have h := c5_match_exec_order.2 (NewLiteralFunction (.vstr "context")) (.vstr "context")
      [] (NewLiteralFunction (.vbool true)) (NewLiteralFunction (.vstr "bar"))
      [NewMatchCase (NewVarFunction "doesnt exist") (NewLiteralFunction (.vstr "foo"))]
      testCtx rfl (by intro c hc; simp at hc) rfl
    exact h

/-- C6: errors propagate upward unmodified except at exactly the two
wrap points — an If condition's error (or non-boolean condition value)
is wrapped as "failed to check if condition: ...", and a Match case
query's error is wrapped as "failed to check match case {i}: ..." with
the zero-based index — while a Match context error, an If branch error,
a Match result error and an arithmetic operand error all propagate with
their original message. -/
theorem c6_error_wrap_points :
    (∀ (c t : Function) (e : Option Function) (ctx : FunctionContext) (msg : Err),
      c.exec ctx = .error msg →
      (NewIfFunction c t e).exec ctx = .error ("failed to check if condition: " ++ msg)) ∧
    (∀ (c t : Function) (e : Option Function) (ctx : FunctionContext) (v : Value),
      c.exec ctx = .ok v → (∀ b, v ≠ .vbool b) →
      (NewIfFunction c t e).exec ctx
        = .error ("failed to check if condition: expected bool value, found " ++ typeName v)) ∧
    (∀ (ce : Function) (cases : List MatchCase) (ctx : FunctionContext) (msg : Err),
      ce.exec ctx = .error msg →
      (NewMatchFunction (some ce) cases).exec ctx = .error msg) ∧
    (∀ (ce : Function) (cv : Value) (pre : List MatchCase) (q r : Function)
       (rest : List MatchCase) (ctx : FunctionContext) (msg : Err),
      ce.exec ctx = .ok cv →
      (∀ c ∈ pre, ∃ u, c.query.exec (withValue ctx cv) = .ok u ∧ u ≠ .vbool true) →
      q.exec (withValue ctx cv) = .error msg →
      (NewMatchFunction (some ce) (pre ++ ⟨q, r⟩ :: rest)).exec ctx
        = .error ("failed to check match case " ++ toString pre.length ++ ": " ++ msg)) ∧
    (∀ (c t : Function) (e : Option Function) (ctx : FunctionContext) (msg : Err),
      c.exec ctx = .ok (.vbool true) → t.exec ctx = .error msg →
      (NewIfFunction c t e).exec ctx = .error msg) ∧
    (∀ (c t eb : Function) (ctx : FunctionContext) (msg : Err),
      c.exec ctx = .ok (.vbool false) → eb.exec ctx = .error msg →
      (NewIfFunction c t (some eb)).exec ctx = .error msg) ∧
    (∀ (ce : Function) (cv : Value) (q r : Function) (rest : List MatchCase)
       (ctx : FunctionContext) (msg : Err),
      ce.exec ctx = .ok cv →
      q.exec (withValue ctx cv) = .ok (.vbool true) →
      r.exec (withValue ctx cv) = .error msg →
      (NewMatchFunction (some ce) (⟨q, r⟩ :: rest)).exec ctx = .error msg) ∧
    (∀ (F G : Function) (ctx : FunctionContext) (f : Function) (msg : Err),
      NewArithmeticExpression [F, G] [.add] = .ok f →
      F.exec ctx = .error msg →
      f.exec ctx = .error msg) := by
  refine ⟨?_, ?_, ?_, ?_, ?_, ?_, ?_, ?_⟩
  · intro c t e ctx msg hc
    simp [NewIfFunction, hc]
  · intro c t e ctx v hc hv
    cases v with
    | vbool b => exact absurd rfl (hv b)
    | vnull => simp [NewIfFunction, hc, typeName]
    | vint n => simp [NewIfFunction, hc, typeName]
    | vuint n => simp [NewIfFunction, hc, typeName]
    | vfloat q => simp [NewIfFunction, hc, typeName]
    | vstr z => simp [NewIfFunction, hc, typeName]
    | varr l => simp [NewIfFunction, hc, typeName]
    | vobj l => simp [NewIfFunction, hc, typeName]
    | vabsent => simp [NewIfFunction, hc, typeName]
    | vdelete => simp [NewIfFunction, hc, typeName]
  · intro ce cases ctx msg hce
    simp [NewMatchFunction, hce]
  · intro ce cv pre q r rest ctx msg hce hpre hq
    exact match_case_error_lemma ce cv pre q r rest ctx msg hce hpre hq
  · intro c t e ctx msg hc ht
    simp [NewIfFunction, hc, ht]
  · intro c t eb ctx msg hc he
    simp [NewIfFunction, hc, he]
  · intro ce cv q r rest ctx msg hce hq hr
    have h := match_case_true_lemma ce cv [] q r rest ctx hce (by intro c hc; simp at hc) hq
    simp only [List.nil_append] at h
    rw [h, hr]
  · intro F G ctx f msg hok hF
    obtain ⟨_, hexec, _⟩ := newArith_ok F [G] [.add] f hok
    rw [hexec]
    simp [execArithChain, splitOn, pipeLoop, evalOrChain, evalAndChain, evalStrict,
      evalOperands, strictCollapse, collapseTier, hF, Bind.bind, Except.bind, List.zip]

/-- C6 witness: the tests' concrete inputs — an If with an undefined
variable condition yields the wrapped text, a Match whose context is the
undefined variable yields the unwrapped text, and a Match whose first
case query is the undefined variable yields the index-0 wrapped text. -/
theorem c6_witness :
    (NewVarFunction "doesnt exist").exec testCtx = .error "variables were undefined" ∧
    (NewIfFunction (NewVarFunction "doesnt exist") (NewLiteralFunction (.vstr "foo"))
        (some (NewLiteralFunction (.vstr "bar")))).exec testCtx
      = .error "failed to check if condition: variables were undefined" ∧
    (NewMatchFunction (some (NewVarFunction "doesnt exist"))
        [NewMatchCase (NewLiteralFunction (.vbool true)) (NewLiteralFunction (.vstr "foo"))]).exec
        testCtx
      = .error "variables were undefined" ∧
    (NewMatchFunction (some (NewLiteralFunction (.vstr "context")))
        [NewMatchCase (NewVarFunction "doesnt exist") (NewLiteralFunction (.vstr "foo")),
         NewMatchCase (NewLiteralFunction (.vbool true)) (NewLiteralFunction (.vstr "bar"))]).exec
        testCtx
      = .error "failed to check match case 0: variables were undefined" := by
  refine ⟨rfl, ?_, ?_, ?_⟩
  · exact c6_error_wrap_points.1 (NewVarFunction "doesnt exist") (NewLiteralFunction (.vstr "foo"))
      (some (NewLiteralFunction (.vstr "bar"))) testCtx "variables were undefined" rfl
  · exact c6_error_wrap_points.2.2.1 (NewVarFunction "doesnt exist")
      [NewMatchCase (NewLiteralFunction (.vbool true)) (NewLiteralFunction (.vstr "foo"))]
      testCtx "variables were undefined" rfl
  · exact c6_error_wrap_points.2.2.2.1 (NewLiteralFunction (.vstr "context")) (.vstr "context")
      [] (NewVarFunction "doesnt exist") (NewLiteralFunction (.vstr "foo"))
      [NewMatchCase (NewLiteralFunction (.vbool true)) (NewLiteralFunction (.vstr "bar"))]
      testCtx "variables were undefined" rfl (by intro c hc; simp at hc) rfl

/-- C7: an If whose condition evaluates to false with no else branch
returns the Absent sentinel without error, and a Match none of whose
case queries evaluates to boolean true returns the Absent sentinel
without error. -/
theorem c7_absent_results :
    (∀ (c t : Function) (ctx : FunctionContext),
      c.exec ctx = .ok (.vbool false) →
      (NewIfFunction c t none).exec ctx = .ok .vabsent) ∧
    (∀ (ce : Function) (cv : Value) (cases : List MatchCase) (ctx : FunctionContext),
      ce.exec ctx = .ok cv →
      (∀ c ∈ cases, ∃ u, c.query.exec (withValue ctx cv) = .ok u ∧ u ≠ .vbool true) →
      (NewMatchFunction (some ce) cases).exec ctx = .ok .vabsent) := by
  constructor
  · intro c t ctx hc
    simp [NewIfFunction, hc]
  · intro ce cv cases ctx hce hcases
    show ((match ce.exec ctx with
          | Except.error e => Except.error e
          | Except.ok v => runCases 0 cases (withValue ctx v)) : Except Err Value) = _
    rw [hce]
    show runCases 0 cases (withValue ctx cv) = _
    rw [← List.append_nil cases, runCases_skip cases 0 [] (withValue ctx cv) ?hp]
    · rfl
    · simpa using hcases

/-- C7 witness: the tests' concrete inputs — `if 10 > 20 { "foo" }` with
no else branch yields the Absent sentinel, and a Match whose two case
queries are both the literal false yields the Absent sentinel. -/
theorem c7_witness :
    ((NewArithmeticExpression [NewLiteralFunction (.vint 10), NewLiteralFunction (.vint 20)]
        [.gt]).map (fun cond => (NewIfFunction cond (NewLiteralFunction (.vstr "foo")) none).exec
          testCtx)) = .ok (.ok .vabsent) ∧
    (NewMatchFunction (some (NewLiteralFunction (.vstr "context")))
        [NewMatchCase (NewLiteralFunction (.vbool false)) (NewLiteralFunction (.vstr "foo")),
         NewMatchCase (NewLiteralFunction (.vbool false)) (NewLiteralFunction (.vstr "bar"))]).exec
        testCtx = .ok .vabsent := by
  constructor
  · obtain ⟨cond, hcond⟩ : ∃ cond,
        NewArithmeticExpression [NewLiteralFunction (.vint 10), NewLiteralFunction (.vint 20)]
          [.gt] = .ok cond := ⟨_, rfl⟩
    rw [hcond]
    have hfalse : cond.exec testCtx = .ok (.vbool false) := by
      obtain ⟨_, hexec, _⟩ := newArith_ok (NewLiteralFunction (.vint 10))
        [NewLiteralFunction (.vint 20)] [.gt] cond hcond
      rw [hexec]
      rfl
    exact congrArg Except.ok (c7_absent_results.1 cond (NewLiteralFunction (.vstr "foo"))
      testCtx hfalse)
  · exact c7_absent_results.2 (NewLiteralFunction (.vstr "context")) (.vstr "context")
      [NewMatchCase (NewLiteralFunction (.vbool false)) (NewLiteralFunction (.vstr "foo")),
       NewMatchCase (NewLiteralFunction (.vbool false)) (NewLiteralFunction (.vstr "bar"))]
      testCtx rfl
      (by
        intro c hc
        simp [NewMatchCase] at hc
        rcases hc with h | h <;> rw [h] <;> exact ⟨.vbool false, rfl, by simp⟩)

/-- C2: in an And (resp. Or) chain, once the already-evaluated left-hand
operands determine the result — every earlier operand true and one
operand false for And; every earlier operand false and one operand true
for Or — the chain returns that boolean without error whatever the
remaining operands are, so the remaining operands (erroring or not) are
never evaluated; this holds for chains of any length, not only adjacent
pairs. -/
theorem c2_and_or_short_circuit :
    (∀ (pre : List Function) (g : Function) (rest : List Function)
       (ctx : FunctionContext) (f : Function),
      NewArithmeticExpression (pre ++ g :: rest)
        (List.replicate (pre.length + rest.length) Op.and) = .ok f →
      (∀ q ∈ pre, q.exec ctx = .ok (.vbool true)) →
      g.exec ctx = .ok (.vbool false) →
      f.exec ctx = .ok (.vbool false)) ∧
    (∀ (pre : List Function) (g : Function) (rest : List Function)
       (ctx : FunctionContext) (f : Function),
      NewArithmeticExpression (pre ++ g :: rest)
        (List.replicate (pre.length + rest.length) Op.or) = .ok f →
      (∀ q ∈ pre, q.exec ctx = .ok (.vbool false)) →
      g.exec ctx = .ok (.vbool true) →
      f.exec ctx = .ok (.vbool true)) := by
  constructor
  · intro pre g rest ctx f hok hpre hg
    cases hfns : pre ++ g :: rest with
    | nil => exact absurd hfns (by simp)
    | cons hd tl =>
      rw [hfns] at hok
      obtain ⟨hlen, hexec, _⟩ := newArith_ok hd tl _ f hok
      rw [hexec]
      have hlen2 : pre.length + rest.length = (tl.map Function.exec).length := by
        have hl : (pre ++ g :: rest).length = (hd :: tl).length := by rw [hfns]
        simp at hl
        simp [List.length_map]
        omega
      rw [zip_replicate Op.and (tl.map Function.exec) (pre.length + rest.length) hlen2]
      rw [execArith_and_route]
      have hpre2 : ∀ q ∈ pre.map Function.exec, q ctx = .ok (.vbool true) := by
        intro q hq
        obtain ⟨p, hp, hpe⟩ := List.mem_map.mp hq
        rw [← hpe]
        exact hpre p hp
      have hsc := evalAndChain_sc (pre.map Function.exec) g.exec (rest.map Function.exec)
        ctx hpre2 hg
      have hmap : pre.map Function.exec ++ g.exec :: rest.map Function.exec
          = hd.exec :: tl.map Function.exec := by
        have hm : (pre ++ g :: rest).map Function.exec = (hd :: tl).map Function.exec := by
          rw [hfns]
        simpa using hm
      rw [hmap] at hsc
      simpa using hsc
  · intro pre g rest ctx f hok hpre hg
    cases hfns : pre ++ g :: rest with
    | nil => exact absurd hfns (by simp)
    | cons hd tl =>
      rw [hfns] at hok
      obtain ⟨hlen, hexec, _⟩ := newArith_ok hd tl _ f hok
      rw [hexec]
      have hlen2 : pre.length + rest.length = (tl.map Function.exec).length := by
        have hl : (pre ++ g :: rest).length = (hd :: tl).length := by rw [hfns]
        simp at hl
        simp [List.length_map]
        omega
      rw [zip_replicate Op.or (tl.map Function.exec) (pre.length + rest.length) hlen2]
      rw [execArith_or_route]
      have hpre2 : ∀ q ∈ pre.map Function.exec, q ctx = .ok (.vbool false) := by
        intro q hq
        obtain ⟨p, hp, hpe⟩ := List.mem_map.mp hq
        rw [← hpe]
        exact hpre p hp
      have hsc := evalOrChain_sc (pre.map Function.exec) g.exec (rest.map Function.exec)
        ctx hpre2 hg
      have hmap : pre.map Function.exec ++ g.exec :: rest.map Function.exec
          = hd.exec :: tl.map Function.exec := by
        have hm : (pre ++ g :: rest).map Function.exec = (hd :: tl).map Function.exec := by
          rw [hfns]
        simpa using hm
      rw [hmap] at hsc
      simpa using hsc

/-- C2 witness: `true And false And X` evaluates to false and
`false Or true Or X` evaluates to true even though the remaining operand
X (an undefined-variable accessor) errors whenever it is evaluated. -/
theorem c2_witness :
    (NewVarFunction "boom").exec testCtx = .error "variables were undefined" ∧
    (NewArithmeticExpression
        [NewLiteralFunction (.vbool true), NewLiteralFunction (.vbool false),
         NewVarFunction "boom"] [.and, .and]).map (fun f => f.exec testCtx)
      = .ok (.ok (.vbool false)) ∧
    (NewArithmeticExpression
        [NewLiteralFunction (.vbool false), NewLiteralFunction (.vbool true),
         NewVarFunction "boom"] [.or, .or]).map (fun f => f.exec testCtx)
      = .ok (.ok (.vbool true)) := by
  refine ⟨rfl, ?_, ?_⟩
  · obtain ⟨f, hf⟩ : ∃ f,
        NewArithmeticExpression
          [NewLiteralFunction (.vbool true), NewLiteralFunction (.vbool false),
           NewVarFunction "boom"] [.and, .and] = .ok f := ⟨_, rfl⟩
    rw [hf]
    refine congrArg Except.ok (c2_and_or_short_circuit.1 [NewLiteralFunction (.vbool true)]
      (NewLiteralFunction (.vbool false)) [NewVarFunction "boom"] testCtx f hf ?_ rfl)
    intro q hq
    simp at hq
    rw [hq]
    rfl
  · obtain ⟨f, hf⟩ : ∃ f,
        NewArithmeticExpression
          [NewLiteralFunction (.vbool false), NewLiteralFunction (.vbool true),
           NewVarFunction "boom"] [.or, .or] = .ok f := ⟨_, rfl⟩
    rw [hf]
    refine congrArg Except.ok (c2_and_or_short_circuit.2 [NewLiteralFunction (.vbool false)]
      (NewLiteralFunction (.vbool true)) [NewVarFunction "boom"] testCtx f hf ?_ rfl)
    intro q hq
    simp at hq
    rw [hq]
    rfl

/-- C3: the coalescing Pipe evaluates operands left to right, skipping
every operand whose result is a sentinel or whose evaluation errors, and
returns the first non-sentinel non-error value whatever operands follow;
when every earlier operand is skippable the final operand's result is
returned as-is — sentinel included, and a final error propagates; in
particular coalescing the literals [Delete, Absent, "this"] returns
"this". -/
theorem c3_pipe_coalesce :
    (∀ (pre : List Function) (g : Function) (rest : List Function)
       (ctx : FunctionContext) (f : Function) (v : Value),
      NewArithmeticExpression (pre ++ g :: rest)
        (List.replicate (pre.length + rest.length) Op.pipe) = .ok f →
      (∀ q ∈ pre, Skippable (q.exec ctx)) →
      g.exec ctx = .ok v → isSentinel v = false →
      f.exec ctx = .ok v) ∧
    (∀ (pre : List Function) (g : Function) (ctx : FunctionContext) (f : Function),
      NewArithmeticExpression (pre ++ [g]) (List.replicate pre.length Op.pipe) = .ok f →
      (∀ q ∈ pre, Skippable (q.exec ctx)) →
      f.exec ctx = g.exec ctx) ∧
    (NewArithmeticExpression [NewLiteralFunction .vdelete, NewLiteralFunction .vabsent,
        NewLiteralFunction (.vstr "this")] [.pipe, .pipe]).map (fun f => f.exec testCtx)
      = .ok (.ok (.vstr "this")) := by
  refine ⟨?_, ?_, rfl⟩
  · intro pre g rest ctx f v hok hpre hg hv
    cases hfns : pre ++ g :: rest with
    | nil => exact absurd hfns (by simp)
    | cons hd tl =>
      rw [hfns] at hok
      obtain ⟨hlen, hexec, _⟩ := newArith_ok hd tl _ f hok
      rw [hexec]
      have hlen2 : pre.length + rest.length = (tl.map Function.exec).length := by
        have hl : (pre ++ g :: rest).length = (hd :: tl).length := by rw [hfns]
        simp at hl
        simp [List.length_map]
        omega
      rw [zip_replicate Op.pipe (tl.map Function.exec) (pre.length + rest.length) hlen2]
      rw [execArith_pipe_route]
      have hpre2 : ∀ q ∈ pre.map Function.exec, Skippable (q ctx) := by
        intro q hq
        obtain ⟨p, hp, hpe⟩ := List.mem_map.mp hq
        rw [← hpe]
        exact hpre p hp
      have hsc := pipeLoop_chain (pre.map Function.exec) g.exec (rest.map Function.exec)
        ctx v hpre2 hg hv
      have hmap : pre.map Function.exec ++ g.exec :: rest.map Function.exec
          = hd.exec :: tl.map Function.exec := by
        have hm : (pre ++ g :: rest).map Function.exec = (hd :: tl).map Function.exec := by
          rw [hfns]
        simpa using hm
      rw [hmap] at hsc
      simpa using hsc
  · intro pre g ctx f hok hpre
    cases hfns : pre ++ [g] with
    | nil => exact absurd hfns (by simp)
    | cons hd tl =>
      rw [hfns] at hok
      obtain ⟨hlen, hexec, _⟩ := newArith_ok hd tl _ f hok
      rw [hexec]
      have hlen2 : pre.length = (tl.map Function.exec).length := by
        have hl : (pre ++ [g]).length = (hd :: tl).length := by rw [hfns]
        simp at hl
        simp [List.length_map]
        omega
      rw [zip_replicate Op.pipe (tl.map Function.exec) pre.length hlen2]
      rw [execArith_pipe_route]
      have hpre2 : ∀ q ∈ pre.map Function.exec, Skippable (q ctx) := by
        intro q hq
        obtain ⟨p, hp, hpe⟩ := List.mem_map.mp hq
        rw [← hpe]
        exact hpre p hp
      have hsc := pipeLoop_final (pre.map Function.exec) g.exec ctx hpre2
      have hmap : pre.map Function.exec ++ [g.exec] = hd.exec :: tl.map Function.exec := by
        have hm : (pre ++ [g]).map Function.exec = (hd :: tl).map Function.exec := by
          rw [hfns]
        simpa using hm
      rw [hmap] at hsc
      simpa using hsc

/-- C3 witness: coalescing the sentinel literals with the string literal
"this" returns "this" by the skip rule, and a chain whose operands are
all sentinels returns the final operand's sentinel as-is. -/
theorem c3_witness :
    (NewArithmeticExpression [NewLiteralFunction .vdelete, NewLiteralFunction .vabsent,
        NewLiteralFunction (.vstr "this")] [.pipe, .pipe]).map (fun f => f.exec testCtx)
      = .ok (.ok (.vstr "this")) ∧
    (NewArithmeticExpression [NewLiteralFunction .vdelete, NewLiteralFunction .vabsent]
        [.pipe]).map (fun f => f.exec testCtx) = .ok (.ok .vabsent) := by
  constructor
  · obtain ⟨f, hf⟩ : ∃ f,
        NewArithmeticExpression [NewLiteralFunction .vdelete, NewLiteralFunction .vabsent,
          NewLiteralFunction (.vstr "this")] [.pipe, .pipe] = .ok f := ⟨_, rfl⟩
    rw [hf]
    refine congrArg Except.ok (c3_pipe_coalesce.1
      [NewLiteralFunction .vdelete, NewLiteralFunction .vabsent]
      (NewLiteralFunction (.vstr "this")) [] testCtx f (.vstr "this") hf ?_ rfl rfl)
    intro q hq
    simp at hq
    rcases hq with h | h <;> rw [h] <;> exact rfl
  · obtain ⟨f, hf⟩ : ∃ f,
        NewArithmeticExpression [NewLiteralFunction .vdelete, NewLiteralFunction .vabsent]
          [.pipe] = .ok f := ⟨_, rfl⟩
    rw [hf]
    have h := c3_pipe_coalesce.2.1 [NewLiteralFunction .vdelete] (NewLiteralFunction .vabsent)
      testCtx f hf (by intro q hq; simp at hq; rw [hq]; exact rfl)
    show Except.ok (f.exec testCtx) = _
    rw [h]
    rfl

theorem withValue_msgBatch (ctx : FunctionContext) (v : Value) :
    (withValue ctx v).msgBatch = ctx.msgBatch := by
  cases ctx; rfl

theorem sEvalOperands_pres :
    ∀ (rest : List (Op × SFn)), (∀ q ∈ rest, SPreservesBatch q.2) →
      ∀ ctx, (sEvalOperands rest ctx).2 = ctx.msgBatch := by
  intro rest
  induction rest with
  | nil => intro _ ctx; rfl
  | cons p rest2 ih =>
    obtain ⟨o, f⟩ := p
    intro h ctx
    have hf : SPreservesBatch f := h (o, f) (List.mem_cons_self (o, f) rest2)
    have h2 : ∀ q ∈ rest2, SPreservesBatch q.2 :=
      fun q hq => h q (List.mem_cons_of_mem (o, f) hq)
    rcases hfc : f ctx with ⟨r, b⟩
    have hb : b = ctx.msgBatch := by
      have := hf ctx
      rw [hfc] at this
      exact this
    cases r with
    | error e => simp [sEvalOperands, hfc]; exact hb
    | ok v =>
      rcases hrec : sEvalOperands rest2 (withBatch ctx b) with ⟨r2, b2⟩
      have hb2 : b2 = b := by
        have := ih h2 (withBatch ctx b)
        rw [hrec, withBatch_msgBatch] at this
        exact this
      cases r2 with
      | error e2 => simp [sEvalOperands, hfc, hrec]; rw [hb2, hb]
      | ok vs => simp [sEvalOperands, hfc, hrec]; rw [hb2, hb]

theorem sEvalStrict_pres :
    ∀ (c : ChainOf SFn), PresChain c → ∀ ctx, (sEvalStrict c ctx).2 = ctx.msgBatch := by
  intro c hc ctx
  rcases hfc : c.1 ctx with ⟨r, b⟩
  have hb : b = ctx.msgBatch := by
    have := hc.1 ctx
    rw [hfc] at this
    exact this
  cases r with
  | error e => simp [sEvalStrict, hfc]; exact hb
  | ok v =>
    rcases hops : sEvalOperands c.2 (withBatch ctx b) with ⟨r2, b2⟩
    have hb2 : b2 = b := by
      have := sEvalOperands_pres c.2 hc.2 (withBatch ctx b)
      rw [hops, withBatch_msgBatch] at this
      exact this
    cases r2 with
    | error e2 => simp [sEvalStrict, hfc, hops]; rw [hb2, hb]
    | ok vs => simp [sEvalStrict, hfc, hops]; rw [hb2, hb]

theorem sAndLoop_pres :
    ∀ (cs : List (ChainOf SFn)) (c : ChainOf SFn), PresChain c →
      (∀ c2 ∈ cs, PresChain c2) → ∀ ctx, (sAndLoop c cs ctx).2 = ctx.msgBatch := by
  intro cs
  induction cs with
  | nil =>
    intro c hc _ ctx
    rcases hsv : sEvalStrict c ctx with ⟨r, b⟩
    have hb : b = ctx.msgBatch := by
      have := sEvalStrict_pres c hc ctx
      rw [hsv] at this
      exact this
    cases r with
    | error e => simp [sAndLoop, hsv]; exact hb
    | ok v => simp [sAndLoop, hsv]; exact hb
  | cons c2 cs2 ih =>
    intro c hc hcs ctx
    have hc2 : PresChain c2 := hcs c2 (List.mem_cons_self c2 cs2)
    have hcs2 : ∀ x ∈ cs2, PresChain x := fun x hx => hcs x (List.mem_cons_of_mem c2 hx)
    rcases hsv : sEvalStrict c ctx with ⟨r, b⟩
    have hb : b = ctx.msgBatch := by
      have := sEvalStrict_pres c hc ctx
      rw [hsv] at this
      exact this
    cases r with
    | error e => simp [sAndLoop, hsv]; exact hb
    | ok v =>
      cases hab : asBool v with
      | error e => simp [sAndLoop, hsv, hab]; exact hb
      | ok bv =>
        cases bv with
        | true =>
          have := ih c2 hc2 hcs2 (withBatch ctx b)
          rw [withBatch_msgBatch] at this
          simp [sAndLoop, hsv, hab]
          rw [this, hb]
        | false => simp [sAndLoop, hsv, hab]; exact hb

theorem splitOn_pres (p : Op → Bool) :
    ∀ (rest : List (Op × SFn)) (f : SFn),
      SPreservesBatch f → (∀ q ∈ rest, SPreservesBatch q.2) →
      PresChain (splitOn p f rest).1 ∧ ∀ c ∈ (splitOn p f rest).2, PresChain c := by
  intro rest
  induction rest with
  | nil =>
    intro f hf _
    exact ⟨⟨hf, by simp [splitOn]⟩, by simp [splitOn]⟩
  | cons q rest2 ih =>
    obtain ⟨o, g⟩ := q
    intro f hf h
    have hg : SPreservesBatch g := h (o, g) (List.mem_cons_self (o, g) rest2)
    have h2 : ∀ x ∈ rest2, SPreservesBatch x.2 :=
      fun x hx => h x (List.mem_cons_of_mem (o, g) hx)
    obtain ⟨hr1, hr2⟩ := ih g hg h2
    rcases hsp : splitOn p g rest2 with ⟨rc, rgs⟩
    rw [hsp] at hr1 hr2
    by_cases hp : p o
    · have hred : splitOn p f ((o, g) :: rest2) = ((f, []), rc :: rgs) := by
        simp [splitOn, hsp, hp]
      rw [hred]
      refine ⟨⟨hf, by simp⟩, ?_⟩
      intro c hc
      simp at hc
      rcases hc with hc | hc
      · rw [hc]; exact hr1
      · exact hr2 c hc
    · have hred : splitOn p f ((o, g) :: rest2) = ((f, (o, rc.1) :: rc.2), rgs) := by
        simp [splitOn, hsp, hp]
      rw [hred]
      refine ⟨⟨hf, ?_⟩, fun c hc => hr2 c hc⟩
      intro x hx
      simp at hx
      rcases hx with hx | hx
      · rw [hx]; exact hr1.1
      · exact hr1.2 x hx

theorem sEvalAndChain_pres :
    ∀ (g : ChainOf SFn), PresChain g → ∀ ctx, (sEvalAndChain g ctx).2 = ctx.msgBatch := by
  intro g hg ctx
  obtain ⟨hp1, hp2⟩ := splitOn_pres (· == Op.and) g.2 g.1 hg.1 hg.2
  rcases hsp : splitOn (· == Op.and) g.1 g.2 with ⟨c, cs⟩
  rw [hsp] at hp1 hp2
  cases cs with
  | nil =>
    show (sEvalAndChain g ctx).2 = ctx.msgBatch
    unfold sEvalAndChain
    rw [hsp]
    exact sEvalStrict_pres c hp1 ctx
  | cons c2 cs2 =>
    show (sEvalAndChain g ctx).2 = ctx.msgBatch
    unfold sEvalAndChain
    rw [hsp]
    exact sAndLoop_pres (c2 :: cs2) c hp1 hp2 ctx

theorem sOrLoop_pres :
    ∀ (gs : List (ChainOf SFn)) (g : ChainOf SFn), PresChain g →
      (∀ g2 ∈ gs, PresChain g2) → ∀ ctx, (sOrLoop g gs ctx).2 = ctx.msgBatch := by
  intro gs
  induction gs with
  | nil =>
    intro g hg _ ctx
    rcases hsv : sEvalAndChain g ctx with ⟨r, b⟩
    have hb : b = ctx.msgBatch := by
      have := sEvalAndChain_pres g hg ctx
      rw [hsv] at this
      exact this
    cases r with
    | error e => simp [sOrLoop, hsv]; exact hb
    | ok v => simp [sOrLoop, hsv]; exact hb
  | cons g2 gs2 ih =>
    intro g hg hgs ctx
    have hg2 : PresChain g2 := hgs g2 (List.mem_cons_self g2 gs2)
    have hgs2 : ∀ x ∈ gs2, PresChain x := fun x hx => hgs x (List.mem_cons_of_mem g2 hx)
    rcases hsv : sEvalAndChain g ctx with ⟨r, b⟩
    have hb : b = ctx.msgBatch := by
      have := sEvalAndChain_pres g hg ctx
      rw [hsv] at this
      exact this
    cases r with
    | error e => simp [sOrLoop, hsv]; exact hb
    | ok v =>
      cases hab : asBool v with
      | error e => simp [sOrLoop, hsv, hab]; exact hb
      | ok bv =>
        cases bv with
        | true => simp [sOrLoop, hsv, hab]; exact hb
        | false =>
          have := ih g2 hg2 hgs2 (withBatch ctx b)
          rw [withBatch_msgBatch] at this
          simp [sOrLoop, hsv, hab]
          rw [this, hb]

theorem sEvalOrChain_pres :
    ∀ (g : ChainOf SFn), PresChain g → ∀ ctx, (sEvalOrChain g ctx).2 = ctx.msgBatch := by
  intro g hg ctx
  obtain ⟨hp1, hp2⟩ := splitOn_pres (· == Op.or) g.2 g.1 hg.1 hg.2
  rcases hsp : splitOn (· == Op.or) g.1 g.2 with ⟨c, cs⟩
  rw [hsp] at hp1 hp2
  cases cs with
  | nil =>
    unfold sEvalOrChain
    rw [hsp]
    exact sEvalAndChain_pres c hp1 ctx
  | cons c2 cs2 =>
    unfold sEvalOrChain
    rw [hsp]
    exact sOrLoop_pres (c2 :: cs2) c hp1 hp2 ctx

theorem sPipeLoop_pres :
    ∀ (gs : List (ChainOf SFn)) (g : ChainOf SFn), PresChain g →
      (∀ g2 ∈ gs, PresChain g2) → ∀ ctx, (sPipeLoop g gs ctx).2 = ctx.msgBatch := by
  intro gs
  induction gs with
  | nil =>
    intro g hg _ ctx
    exact sEvalOrChain_pres g hg ctx
  | cons g2 gs2 ih =>
    intro g hg hgs ctx
    have hg2 : PresChain g2 := hgs g2 (List.mem_cons_self g2 gs2)
    have hgs2 : ∀ x ∈ gs2, PresChain x := fun x hx => hgs x (List.mem_cons_of_mem g2 hx)
    rcases hsv : sEvalOrChain g ctx with ⟨r, b⟩
    have hb : b = ctx.msgBatch := by
      have := sEvalOrChain_pres g hg ctx
      rw [hsv] at this
      exact this
    have hrec : (sPipeLoop g2 gs2 (withBatch ctx b)).2 = ctx.msgBatch := by
      have := ih g2 hg2 hgs2 (withBatch ctx b)
      rw [withBatch_msgBatch] at this
      rw [this, hb]
    cases r with
    | error e => simp [sPipeLoop, hsv]; exact hrec
    | ok v =>
      by_cases hs : isSentinel v = true
      · simp [sPipeLoop, hsv, hs]; exact hrec
      · simp at hs
        simp [sPipeLoop, hsv, hs]; exact hb

theorem sExecArithChain_pres (hd : SFn) (rest : List (Op × SFn))
    (hhd : SPreservesBatch hd) (hrest : ∀ q ∈ rest, SPreservesBatch q.2) :
    ∀ ctx, (sExecArithChain hd rest ctx).2 = ctx.msgBatch := by
  intro ctx
  obtain ⟨hp1, hp2⟩ := splitOn_pres (· == Op.pipe) rest hd hhd hrest
  rcases hsp : splitOn (· == Op.pipe) hd rest with ⟨g, gs⟩
  rw [hsp] at hp1 hp2
  unfold sExecArithChain
  rw [hsp]
  exact sPipeLoop_pres gs g hp1 hp2 ctx

theorem sRunCases_pres :
    ∀ (cs : List (SFn × SFn)), (∀ pr ∈ cs, SPreservesBatch pr.1 ∧ SPreservesBatch pr.2) →
      ∀ (i : Nat) (ctx : FunctionContext), (sRunCases i cs ctx).2 = ctx.msgBatch := by
  intro cs
  induction cs with
  | nil => intro _ i ctx; rfl
  | cons pr cs2 ih =>
    obtain ⟨q, r⟩ := pr
    intro h i ctx
    have hq : SPreservesBatch q := (h (q, r) (List.mem_cons_self (q, r) cs2)).1
    have hr : SPreservesBatch r := (h (q, r) (List.mem_cons_self (q, r) cs2)).2
    have h2 : ∀ x ∈ cs2, SPreservesBatch x.1 ∧ SPreservesBatch x.2 :=
      fun x hx => h x (List.mem_cons_of_mem (q, r) hx)
    rcases hqc : q ctx with ⟨res, b⟩
    have hb : b = ctx.msgBatch := by
      have := hq ctx
      rw [hqc] at this
      exact this
    have hrec : (sRunCases (i + 1) cs2 (withBatch ctx b)).2 = ctx.msgBatch := by
      have := ih h2 (i + 1) (withBatch ctx b)
      rw [withBatch_msgBatch] at this
      rw [this, hb]
    have hres : (r (withBatch ctx b)).2 = ctx.msgBatch := by
      have := hr (withBatch ctx b)
      rw [withBatch_msgBatch] at this
      rw [this, hb]
    cases res with
    | error e => simp [sRunCases, hqc]; exact hb
    | ok v =>
      cases v with
      | vbool bv =>
        cases bv with
        | true => simp [sRunCases, hqc]; exact hres
        | false => simp [sRunCases, hqc]; exact hrec
      | vnull => simp [sRunCases, hqc]; exact hrec
      | vint n => simp [sRunCases, hqc]; exact hrec
      | vuint n => simp [sRunCases, hqc]; exact hrec
      | vfloat q2 => simp [sRunCases, hqc]; exact hrec
      | vstr z => simp [sRunCases, hqc]; exact hrec
      | varr l => simp [sRunCases, hqc]; exact hrec
      | vobj l => simp [sRunCases, hqc]; exact hrec
      | vabsent => simp [sRunCases, hqc]; exact hrec
      | vdelete => simp [sRunCases, hqc]; exact hrec

theorem execNodeS_pres : ∀ (fuel : Nat) (n : Node), SPreservesBatch (execNodeS fuel n) := by
  intro fuel
  induction fuel with
  | zero => intro n ctx; rfl
  | succ fuel ih =>
    intro n
    cases n with
    | lit v => intro ctx; rfl
    | fieldN p => intro ctx; rfl
    | jsonN p => intro ctx; rfl
    | metaN k => intro ctx; rfl
    | varN nm => intro ctx; rfl
    | arithN hd rest =>
      intro ctx
      show (sExecArithChain (execNodeS fuel hd)
        (rest.map (fun p : Op × Node => (p.1, execNodeS fuel p.2))) ctx).2 = ctx.msgBatch
      refine sExecArithChain_pres (execNodeS fuel hd) _ (ih hd) ?_ ctx
      intro q hq
      obtain ⟨pr, _, hqe⟩ := List.mem_map.mp hq
      rw [← hqe]
      exact ih pr.2
    | ifN c t e =>
      intro ctx
      show (match execNodeS fuel c ctx with
        | (.error msg, b) => ((.error ("failed to check if condition: " ++ msg) : Except Err Value), b)
        | (.ok (.vbool true), b) => execNodeS fuel t (withBatch ctx b)
        | (.ok (.vbool false), b) =>
          match e with
          | some en => execNodeS fuel en (withBatch ctx b)
          | none => (.ok .vabsent, b)
        | (.ok v, b) =>
          (.error ("failed to check if condition: expected bool value, found " ++ typeName v), b)).2
        = ctx.msgBatch
      rcases hc : execNodeS fuel c ctx with ⟨r, b⟩
      have hb : b = ctx.msgBatch := by
        have := ih c ctx
        rw [hc] at this
        exact this
      have hthen : (execNodeS fuel t (withBatch ctx b)).2 = ctx.msgBatch := by
        have := ih t (withBatch ctx b)
        rw [withBatch_msgBatch] at this
        rw [this, hb]
      cases r with
      | error msg => simpa using hb
      | ok v =>
        cases v with
        | vbool bv =>
          cases bv with
          | true => simpa using hthen
          | false =>
            cases e with
            | some en =>
              have : (execNodeS fuel en (withBatch ctx b)).2 = ctx.msgBatch := by
                have := ih en (withBatch ctx b)
                rw [withBatch_msgBatch] at this
                rw [this, hb]
              simpa using this
            | none => simpa using hb
        | vnull => simpa using hb
        | vint n2 => simpa using hb
        | vuint n2 => simpa using hb
        | vfloat q2 => simpa using hb
        | vstr z => simpa using hb
        | varr l => simpa using hb
        | vobj l => simpa using hb
        | vabsent => simpa using hb
        | vdelete => simpa using hb
    | matchN ce cases =>
      intro ctx
      have hcases : ∀ pr ∈ cases.map (fun p => (execNodeS fuel p.1, execNodeS fuel p.2)),
          SPreservesBatch pr.1 ∧ SPreservesBatch pr.2 := by
        intro pr hpr
        obtain ⟨p2, _, hpe⟩ := List.mem_map.mp hpr
        rw [← hpe]
        exact ⟨ih p2.1, ih p2.2⟩
      cases ce with
      | none =>
        show (sRunCases 0 (cases.map (fun p => (execNodeS fuel p.1, execNodeS fuel p.2))) ctx).2
          = ctx.msgBatch
        exact sRunCases_pres _ hcases 0 ctx
      | some cn =>
        show (match execNodeS fuel cn ctx with
          | (.error e, b) => ((.error e : Except Err Value), b)
          | (.ok v, b) =>
            sRunCases 0 (cases.map (fun p : Node × Node => (execNodeS fuel p.1, execNodeS fuel p.2)))
              (withValue (withBatch ctx b) v)).2 = ctx.msgBatch
        rcases hc : execNodeS fuel cn ctx with ⟨r, b⟩
        have hb : b = ctx.msgBatch := by
          have := ih cn ctx
          rw [hc] at this
          exact this
        cases r with
        | error e => simpa using hb
        | ok v =>
          have := sRunCases_pres _ hcases 0 (withValue (withBatch ctx b) v)
          rw [withValue_msgBatch, withBatch_msgBatch] at this
          simp only []
          rw [this, hb]

/-- C10: evaluation of every expression tree is pure — for any recursion
budget, node, and context, the batch-threading evaluation hands back
exactly the message batch it was given, and re-running the evaluation on
the context carrying that returned batch yields the identical outcome. -/
theorem c10_exec_purity :
    ∀ (fuel : Nat) (n : Node) (ctx : FunctionContext),
      (execNodeS fuel n ctx).2 = ctx.msgBatch ∧
      execNodeS fuel n (withBatch ctx (execNodeS fuel n ctx).2) = execNodeS fuel n ctx := by
  intro fuel n ctx
  have h := execNodeS_pres fuel n ctx
  exact ⟨h, by rw [h, withBatch_self]⟩
